import Mathlib

/-!
# Verification of the az-bot core (WhatsApp QR-code intake bot and pax outreach queue)

This file gives a shallow embedding, in Lean 4, of the core logic of the
az-bot repository and proves the specified properties about it.

Conventions of the embedding:
* TypeScript strings are modelled as `List Char` (Lean `Char` is a Unicode
  scalar value; JavaScript lone surrogates are not modelled).
* Bytes are modelled as `Nat` values below 256, produced and consumed by the
  explicit UTF-8 and base64 codecs defined here.
* The MongoDB collections (`pax`, `messages`) are modelled as in-memory lists,
  and each service method is a pure function from the collection state to the
  updated state plus its result.
* TypeScript `async` methods that can reject are modelled with `Except`;
  methods whose whole body is guarded by `try/catch` and that therefore
  always resolve are modelled as total functions.
-/

/-! ## CPF validator (src/utils/cpf.ts) -/

/-- Numeric value of a decimal digit character (`parseInt` on one digit). -/
def digitVal (c : Char) : Nat := c.toNat - 48

/-- `cleanCpf`: removes all non-numeric characters (`cpf.replace(/\D/g, '')`). -/
def cleanCpf (l : List Char) : List Char := l.filter (fun c => c.isDigit)

/-- The repeated-digit test `/^(\d)\1{10}$/.test(cleaned)`: exactly 11
characters, the first a digit, all equal to the first. -/
def isRepdigitCpf (l : List Char) : Bool :=
  match l with
  | [] => false
  | c :: rest => c.isDigit && l.length == 11 && rest.all (fun x => x == c)

/-- `isValidCpfFormat`: 11 digits after cleaning, not all the same digit. -/
def isValidCpfFormat (l : List Char) : Bool :=
  let cleaned := cleanCpf l
  cleaned.length == 11 && !(isRepdigitCpf cleaned)

/-- `calculateCpfDigit(cpf, position)`: the loop
`for i in [0, position): sum += digit[i] * weight; weight--` with `weight`
starting at `position + 1`, so iteration `i` uses weight `position + 1 - i`;
then `remainder = sum % 11` and the result is `0` if `remainder < 2`,
otherwise `11 - remainder`. -/
def calculateCpfDigit (l : List Char) (position : Nat) : Nat :=
  let sum := (List.range position).foldl
    (fun acc i => acc + digitVal (l.getD i ' ') * (position + 1 - i)) 0
  let remainder := sum % 11
  if remainder < 2 then 0 else 11 - remainder

/-- `isValidCpf`: format check, then both check digits must match
(the early returns of the source compile to `&&`). -/
def isValidCpf (l : List Char) : Bool :=
  let cleaned := cleanCpf l
  isValidCpfFormat l
    && (calculateCpfDigit cleaned 9 == digitVal (cleaned.getD 9 ' '))
    && (calculateCpfDigit cleaned 10 == digitVal (cleaned.getD 10 ' '))

/-! Spec-side restatement of the CPF check-digit algorithm, written from the
spec's words (§4.1 steps 6–9) for the refinement claim C4. -/

/-- The digit values of a CPF candidate, as read by the spec. -/
def specCpfDigits (l : List Char) : List Nat := l.map digitVal

/-- Spec: "for i in [0,9), sum `digit[i] * (10 - i)`; remainder = sum mod 11;
expected = 0 if remainder < 2 else 11 - remainder". -/
def specCheckDigit1 (d : List Nat) : Nat :=
  let s := ((List.range 9).map (fun i => d.getD i 0 * (10 - i))).sum
  let r := s % 11
  if r < 2 then 0 else 11 - r

/-- Spec: check digit 2, "computed identically over positions [0,10) with
weights descending from 11". -/
def specCheckDigit2 (d : List Nat) : Nat :=
  let s := ((List.range 10).map (fun i => d.getD i 0 * (11 - i))).sum
  let r := s % 11
  if r < 2 then 0 else 11 - r

/-- Spec-side validity of an 11-digit candidate: digits not all identical and
both check digits match. -/
def cpfSpecValid (l : List Char) : Prop :=
  (¬ ∃ c, ∀ x ∈ l, x = c) ∧
  specCheckDigit1 (specCpfDigits l) = (specCpfDigits l).getD 9 0 ∧
  specCheckDigit2 (specCpfDigits l) = (specCpfDigits l).getD 10 0

instance (l : List Char) : Decidable (cpfSpecValid l) := by
  unfold cpfSpecValid
  have : Decidable (∃ c, ∀ x ∈ l, x = c) :=
    match l with
    | [] => .isTrue ⟨' ', by simp⟩
    | a :: rest =>
      if h : ∀ x ∈ a :: rest, x = a then .isTrue ⟨a, h⟩
      else .isFalse (by
        rintro ⟨c, hc⟩
        exact h (fun x hx => (hc x hx).trans (hc a (by simp)).symm))
  exact instDecidableAnd

/-! ### C4: the code validator agrees with the spec's algorithm -/

theorem cleanCpf_eq_self (l : List Char) (h : ∀ c ∈ l, c.isDigit) : cleanCpf l = l :=
  List.filter_eq_self.mpr h

theorem foldl_add_eq_sum (f : Nat → Nat) (r : List Nat) (init : Nat) :
    r.foldl (fun acc i => acc + f i) init = init + (r.map f).sum := by
  induction r generalizing init with
  | nil => simp
  | cons a rest ih => simp [List.foldl_cons, ih (init + f a)]; omega

theorem getD_map_digitVal (l : List Char) (i : Nat) (h : i < l.length) :
    (l.map digitVal).getD i 0 = digitVal (l.getD i ' ') := by
  have h2 : i < (l.map digitVal).length := by simpa using h
  rw [List.getD_eq_getElem _ _ h2, List.getD_eq_getElem _ _ h, List.getElem_map]

theorem calculateCpfDigit_eq_spec1 (l : List Char) (h : l.length = 11) :
    calculateCpfDigit l 9 = specCheckDigit1 (specCpfDigits l) := by
  unfold calculateCpfDigit specCheckDigit1 specCpfDigits
  rw [foldl_add_eq_sum]
  have hmap : (List.range 9).map (fun i => digitVal (l.getD i ' ') * (9 + 1 - i)) =
      (List.range 9).map (fun i => (l.map digitVal).getD i 0 * (10 - i)) := by
    apply List.map_congr_left
    intro i hi
    have hi9 : i < 9 := List.mem_range.mp hi
    rw [getD_map_digitVal l i (by omega)]
  rw [hmap]
  simp only [Nat.zero_add]

theorem calculateCpfDigit_eq_spec2 (l : List Char) (h : l.length = 11) :
    calculateCpfDigit l 10 = specCheckDigit2 (specCpfDigits l) := by
  unfold calculateCpfDigit specCheckDigit2 specCpfDigits
  rw [foldl_add_eq_sum]
  have hmap : (List.range 10).map (fun i => digitVal (l.getD i ' ') * (10 + 1 - i)) =
      (List.range 10).map (fun i => (l.map digitVal).getD i 0 * (11 - i)) := by
    apply List.map_congr_left
    intro i hi
    have hi10 : i < 10 := List.mem_range.mp hi
    rw [getD_map_digitVal l i (by omega)]
  rw [hmap]
  simp only [Nat.zero_add]

theorem isRepdigitCpf_iff (l : List Char) (h : l.length = 11)
    (hd : ∀ c ∈ l, c.isDigit) :
    isRepdigitCpf l = true ↔ ∃ c, ∀ x ∈ l, x = c := by
  match l, h with
  | a :: rest, h =>
    unfold isRepdigitCpf
    simp only [Bool.and_eq_true, beq_iff_eq, List.all_eq_true]
    constructor
    · rintro ⟨⟨-, -⟩, hall⟩
      refine ⟨a, fun x hx => ?_⟩
      rcases List.mem_cons.mp hx with rfl | hx
      · rfl
      · exact hall x hx
    · rintro ⟨c, hc⟩
      have ha : a = c := hc a (by simp)
      refine ⟨⟨hd a (by simp), by simpa using h⟩, fun x hx => ?_⟩
      exact (hc x (List.mem_cons_of_mem a hx)).trans ha.symm

/-- C4: for every string of exactly 11 decimal digits, `isValidCpf` returns
`true` iff the digits are not all identical and both check digits match the
algorithm described in the spec (weights 10…2 for digit 9, weights 11…2 for
digit 10, remainder mod 11 mapped to 0 below 2 and to 11 − remainder
otherwise). -/
theorem isValidCpf_iff_spec (l : List Char) (h : l.length = 11)
    (hd : ∀ c ∈ l, c.isDigit) :
    isValidCpf l = true ↔ cpfSpecValid l := by
  have hclean : cleanCpf l = l := cleanCpf_eq_self l hd
  have hrep := isRepdigitCpf_iff l h hd
  have hc1 := calculateCpfDigit_eq_spec1 l h
  have hc2 := calculateCpfDigit_eq_spec2 l h
  unfold isValidCpf isValidCpfFormat
  rw [hclean]
  unfold cpfSpecValid
  rw [show (specCpfDigits l).getD 9 0 = digitVal (l.getD 9 ' ') from
        getD_map_digitVal l 9 (by omega),
      show (specCpfDigits l).getD 10 0 = digitVal (l.getD 10 ' ') from
        getD_map_digitVal l 10 (by omega)]
  simp only [hc1, hc2, Bool.and_eq_true, Bool.not_eq_true', beq_iff_eq, h]
  constructor
  · rintro ⟨⟨⟨-, hr⟩, h1⟩, h2⟩
    exact ⟨fun hall => by simp [hrep.mpr hall] at hr, h1, h2⟩
  · rintro ⟨hall, h1, h2⟩
    refine ⟨⟨⟨trivial, ?_⟩, h1⟩, h2⟩
    cases hb : isRepdigitCpf l with
    | false => rfl
    | true => exact absurd (hrep.mp hb) hall

/-- Witness for C4 at the concrete valid CPF 52998224725. -/
theorem isValidCpf_iff_spec_witness :
    isValidCpf "52998224725".data = true ↔ cpfSpecValid "52998224725".data :=
  isValidCpf_iff_spec "52998224725".data (by decide) (by decide)

/-! ## Data model (src/models/Pax.ts, src/models/Message.ts) -/

/-- Direction of a persisted message (`direction: 'in' | 'out'`). -/
inductive MsgDirection
  | dirIn
  | dirOut
deriving DecidableEq

/-- Kind of a persisted message (`kind: 'text' | 'image' | 'system'`). -/
inductive MsgKind
  | text
  | image
  | system
deriving DecidableEq

/-- A document of the `messages` collection, restricted to the fields the
core logic reads (`from`, `direction`, `kind`, `qrcodeMessage`, `message`). -/
structure MessageDoc where
  msgFrom : List Char
  message : List Char
  direction : MsgDirection
  kind : MsgKind
  qrcodeMessage : Bool
deriving DecidableEq

/-- A document of the `pax` collection (`IPax`); `paxId` models the Mongo
document id used by `findById`/`findByIdAndUpdate`. -/
structure PaxDoc where
  paxId : Nat
  name : List Char
  cpf : List Char
  phoneNumber : List Char
  email : Option (List Char)
  sent : Bool
  unavailable : Bool
  sequenceId : Nat
deriving DecidableEq

/-! ## Outreach queue (src/services/PaxQueueService.ts) -/

/-- `Message.distinct('from', { qrcodeMessage: true, direction: 'out',
kind: 'image' })` — the phones that already received a QR code image;
membership is what matters, so duplicates are kept here and deduplicated
only where the source uses the count. -/
def qrPhones (msgs : List MessageDoc) : List (List Char) :=
  (msgs.filter fun m =>
    m.qrcodeMessage && m.direction == .dirOut && m.kind == .image).map
    (fun m => m.msgFrom)

/-- Queue eligibility filter of `getNextPaxInQueue`: `sent: false` and
`phoneNumber: { $nin: phonesWithQRCode }`. -/
def eligiblePax (msgs : List MessageDoc) (paxes : List PaxDoc) : List PaxDoc :=
  paxes.filter fun p => !p.sent && !(qrPhones msgs).contains p.phoneNumber

/-- `findOne(...).sort({ sequenceId: 1 })`: the first document in ascending
`sequenceId` order (ties resolved in favour of the earlier document). -/
def findMinSeq : List PaxDoc → Option PaxDoc
  | [] => none
  | p :: rest =>
    some (rest.foldl (fun acc q => if q.sequenceId < acc.sequenceId then q else acc) p)

/-- Result of `getNextPaxInQueue` (`QueueResult`): either the empty-queue
diagnostic counts or the next pax plus its queue statistics. -/
inductive QueueResult
  | empty (totalPax sentPax withQRCode : Nat)
  | next (pax : PaxDoc) (queuePosition totalInQueue unavailableCount : Nat)
deriving DecidableEq

/-- `PaxQueueService.getNextPaxInQueue` over the modelled collections. -/
def getNextPaxInQueue (msgs : List MessageDoc) (paxes : List PaxDoc) : QueueResult :=
  let phonesWithQRCode := (qrPhones msgs).dedup
  match findMinSeq (eligiblePax msgs paxes) with
  | none =>
    .empty paxes.length (paxes.filter (fun p => p.sent)).length phonesWithQRCode.length
  | some nextPax =>
    let queuePosition :=
      ((eligiblePax msgs paxes).filter fun p => p.sequenceId ≤ nextPax.sequenceId).length
    let totalInQueue := (eligiblePax msgs paxes).length
    let unavailableCount :=
      ((eligiblePax msgs paxes).filter fun p => p.unavailable).length
    .next nextPax queuePosition totalInQueue unavailableCount

/-- Current maximum `sequenceId` of the collection, as computed by
`findOne({}, { sequenceId: 1 }).sort({ sequenceId: -1 })` with the
`(… || 0)` fallback for an empty collection. -/
def maxSeq (paxes : List PaxDoc) : Nat :=
  paxes.foldl (fun m p => max m p.sequenceId) 0

/-- `findByIdAndUpdate`: apply `f` to the first document whose id matches,
leave the collection unchanged when the id is absent. -/
def updateById (id : Nat) (f : PaxDoc → PaxDoc) : List PaxDoc → List PaxDoc
  | [] => []
  | p :: rest => if p.paxId = id then f p :: rest else p :: updateById id f rest

/-- `PaxQueueService.markPaxAsUnavailable`: set `unavailable := true` and
move the document to the tail of the queue by assigning
`maxSeq + 1` (the max is read before the update). -/
def markPaxAsUnavailable (id : Nat) (paxes : List PaxDoc) : List PaxDoc :=
  updateById id
    (fun p => { p with unavailable := true, sequenceId := maxSeq paxes + 1 }) paxes

/-- `PaxQueueService.markPaxAsSent`: set `sent := true`. -/
def markPaxAsSent (id : Nat) (paxes : List PaxDoc) : List PaxDoc :=
  updateById id (fun p => { p with sent := true }) paxes

/-- One row of the list passed to `importPaxList` (`PaxImportData`). -/
structure PaxImportData where
  name : List Char
  cpf : List Char
  phoneNumber : List Char
  email : Option (List Char)
deriving DecidableEq

/-- `trim()` on a modelled string. -/
def trimStr (l : List Char) : List Char :=
  (l.dropWhile (fun c => c.isWhitespace)).reverse.dropWhile
    (fun c => c.isWhitespace) |>.reverse

/-- Loop body of `importPaxList`: for each candidate, skip as duplicate when
its (raw) cpf already exists; otherwise `Pax.create` a new document with the
next `sequenceId`.  `Pax.create` fails (counted in `errors`) when one of the
schema's unique indexes (`cpf`, `sequenceId`) is violated by the trimmed
values; `currentSequenceId++` has already happened in that case.  Fresh Mongo
document ids are modelled by the `freshId` counter. -/
def importGo : List PaxImportData → List PaxDoc → Nat → Nat → Nat → Nat → Nat →
    List PaxDoc × Nat × Nat × Nat
  | [], st, _, _, imported, duplicates, errors => (st, imported, duplicates, errors)
  | d :: ds, st, seqCounter, freshId, imported, duplicates, errors =>
    if st.any (fun p => p.cpf == d.cpf) then
      importGo ds st seqCounter freshId imported (duplicates + 1) errors
    else
      let newPax : PaxDoc :=
        { paxId := freshId
          name := trimStr d.name
          cpf := trimStr d.cpf
          phoneNumber := trimStr d.phoneNumber
          email := d.email.map trimStr
          sent := false
          unavailable := false
          sequenceId := seqCounter }
      if st.any (fun p => p.cpf == newPax.cpf || p.sequenceId == seqCounter) then
        importGo ds st (seqCounter + 1) (freshId + 1) imported duplicates (errors + 1)
      else
        importGo ds (st ++ [newPax]) (seqCounter + 1) (freshId + 1)
          (imported + 1) duplicates errors

/-- `PaxQueueService.importPaxList`: bulk create, continuing the sequence
from the current maximum.  Returns the new collection plus the
(imported, duplicates, errors) counts. -/
def importPaxList (paxList : List PaxImportData) (paxes : List PaxDoc) :
    List PaxDoc × Nat × Nat × Nat :=
  importGo paxList paxes (maxSeq paxes + 1) (paxes.foldl (fun m p => max m p.paxId) 0 + 1)
    0 0 0

/-! ### C1 and C10: properties of `getNextPaxInQueue` -/

theorem foldlMin_spec (rest : List PaxDoc) :
    ∀ p : PaxDoc,
      (rest.foldl (fun acc q => if q.sequenceId < acc.sequenceId then q else acc) p
          ∈ p :: rest) ∧
      (rest.foldl (fun acc q => if q.sequenceId < acc.sequenceId then q else acc)
            p).sequenceId ≤ p.sequenceId ∧
      ∀ q ∈ rest,
        (rest.foldl (fun acc q => if q.sequenceId < acc.sequenceId then q else acc)
              p).sequenceId ≤ q.sequenceId := by
  induction rest with
  | nil => intro p; simp
  | cons a rest ih =>
    intro p
    simp only [List.foldl_cons]
    by_cases hlt : a.sequenceId < p.sequenceId
    · rw [if_pos hlt]
      obtain ⟨hmem, hle, hall⟩ := ih a
      refine ⟨?_, le_trans hle (le_of_lt hlt), ?_⟩
      · rcases List.mem_cons.mp hmem with he | hm
        · rw [he]; exact List.mem_cons_of_mem _ (List.mem_cons_self a rest)
        · exact List.mem_cons_of_mem _ (List.mem_cons_of_mem a hm)
      · intro q hq
        rcases List.mem_cons.mp hq with rfl | hq2
        · exact hle
        · exact hall q hq2
    · rw [if_neg hlt]
      obtain ⟨hmem, hle, hall⟩ := ih p
      refine ⟨?_, hle, ?_⟩
      · rcases List.mem_cons.mp hmem with he | hm
        · rw [he]; exact List.mem_cons_self p (a :: rest)
        · exact List.mem_cons_of_mem _ (List.mem_cons_of_mem a hm)
      · intro q hq
        rcases List.mem_cons.mp hq with rfl | hq2
        · exact le_trans hle (Nat.le_of_not_lt hlt)
        · exact hall q hq2

theorem findMinSeq_spec (l : List PaxDoc) (p : PaxDoc) (h : findMinSeq l = some p) :
    p ∈ l ∧ ∀ q ∈ l, p.sequenceId ≤ q.sequenceId := by
  match l, h with
  | a :: rest, h =>
    obtain ⟨hmem, hle, hall⟩ := foldlMin_spec rest a
    have hp : rest.foldl (fun acc q => if q.sequenceId < acc.sequenceId then q else acc) a
        = p := by
      simpa [findMinSeq] using h
    rw [hp] at hmem hle hall
    refine ⟨hmem, fun q hq => ?_⟩
    rcases List.mem_cons.mp hq with rfl | hq2
    · exact hle
    · exact hall q hq2

theorem mem_eligiblePax {msgs : List MessageDoc} {paxes : List PaxDoc} {p : PaxDoc}
    (h : p ∈ eligiblePax msgs paxes) :
    p ∈ paxes ∧ p.sent = false ∧ (qrPhones msgs).contains p.phoneNumber = false := by
  obtain ⟨h1, h2⟩ := List.mem_filter.mp h
  simp only [Bool.and_eq_true, Bool.not_eq_true'] at h2
  exact ⟨h1, h2.1, h2.2⟩

theorem eligiblePax_mem {msgs : List MessageDoc} {paxes : List PaxDoc} {q : PaxDoc}
    (hq : q ∈ paxes) (hs : q.sent = false)
    (hc : (qrPhones msgs).contains q.phoneNumber = false) :
    q ∈ eligiblePax msgs paxes :=
  List.mem_filter.mpr ⟨hq, by rw [hs, hc]; rfl⟩

/-- C1: whenever `getNextPaxInQueue` returns an entry, that entry has
`sent = false`, its phone is not in the QR-delivered exclusion set, and its
`sequenceId` is minimal among all entries satisfying those two conditions. -/
theorem getNextPaxInQueue_c1 (msgs : List MessageDoc) (paxes : List PaxDoc)
    (p : PaxDoc) (qp t u : Nat)
    (h : getNextPaxInQueue msgs paxes = .next p qp t u) :
    p.sent = false ∧ (qrPhones msgs).contains p.phoneNumber = false ∧
      ∀ q ∈ paxes, q.sent = false →
        (qrPhones msgs).contains q.phoneNumber = false →
        p.sequenceId ≤ q.sequenceId := by
  unfold getNextPaxInQueue at h
  cases hm : findMinSeq (eligiblePax msgs paxes) with
  | none => rw [hm] at h; exact absurd h (by simp)
  | some m =>
    rw [hm] at h
    obtain ⟨hm1, -, -, -⟩ := QueueResult.next.inj h
    subst hm1
    obtain ⟨hmem, hmin⟩ := findMinSeq_spec _ _ hm
    obtain ⟨-, hsent, hphone⟩ := mem_eligiblePax hmem
    exact ⟨hsent, hphone, fun q hq hqs hqc =>
      hmin q (eligiblePax_mem hq hqs hqc)⟩

/-- Witness for C1 at a concrete queue state. -/
theorem getNextPaxInQueue_c1_witness :
    (⟨7, "Ana".data, "52998224725".data, "5511999990000".data, none,
        false, false, 1⟩ : PaxDoc).sent = false ∧
      (qrPhones []).contains "5511999990000".data = false ∧
      ∀ q ∈ [(⟨7, "Ana".data, "52998224725".data, "5511999990000".data, none,
          false, false, 1⟩ : PaxDoc)], q.sent = false →
        (qrPhones []).contains q.phoneNumber = false →
        (1 : Nat) ≤ q.sequenceId :=
  getNextPaxInQueue_c1 []
    [⟨7, "Ana".data, "52998224725".data, "5511999990000".data, none, false, false, 1⟩]
    ⟨7, "Ana".data, "52998224725".data, "5511999990000".data, none, false, false, 1⟩
    1 1 0 (by decide)

/-- All `sequenceId` values of the collection are pairwise distinct. -/
def SeqDistinct (paxes : List PaxDoc) : Prop :=
  (paxes.map fun p => p.sequenceId).Nodup

instance (paxes : List PaxDoc) : Decidable (SeqDistinct paxes) := by
  unfold SeqDistinct; exact List.nodupDecidable _

/-- C10: under `sequenceId` uniqueness, whenever `getNextPaxInQueue` returns
an entry, the reported `queuePosition` is exactly 1. -/
theorem getNextPaxInQueue_position_one (msgs : List MessageDoc)
    (paxes : List PaxDoc) (p : PaxDoc) (qp t u : Nat)
    (hnd : SeqDistinct paxes)
    (h : getNextPaxInQueue msgs paxes = .next p qp t u) :
    qp = 1 := by
  unfold getNextPaxInQueue at h
  cases hm : findMinSeq (eligiblePax msgs paxes) with
  | none => rw [hm] at h; exact absurd h (by simp)
  | some m =>
    rw [hm] at h
    obtain ⟨-, hm2, -, -⟩ := QueueResult.next.inj h
    obtain ⟨hmem, hmin⟩ := findMinSeq_spec _ _ hm
    have hndel : ((eligiblePax msgs paxes).map fun q => q.sequenceId).Nodup :=
      hnd.sublist ((List.filter_sublist paxes).map _)
    have hcongr : (eligiblePax msgs paxes).filter
          (fun q => q.sequenceId ≤ m.sequenceId) =
        (eligiblePax msgs paxes).filter (fun q => q.sequenceId == m.sequenceId) := by
      apply List.filter_congr
      intro x hx
      by_cases hxe : x.sequenceId = m.sequenceId
      · simp [hxe]
      · have hge := hmin x hx
        have hnle : ¬ x.sequenceId ≤ m.sequenceId :=
          fun hle => hxe (Nat.le_antisymm hle hge)
        simp [hxe, hnle]
    have hcount : ((eligiblePax msgs paxes).filter
          (fun q => q.sequenceId == m.sequenceId)).length =
        List.count m.sequenceId ((eligiblePax msgs paxes).map fun q => q.sequenceId) := by
      rw [List.count, List.countP_map, List.countP_eq_length_filter]
      rfl
    rw [← hm2, hcongr, hcount,
      List.count_eq_one_of_mem hndel (List.mem_map_of_mem _ hmem)]

/-- Witness for C10 at a concrete queue state with distinct sequence ids. -/
theorem getNextPaxInQueue_position_one_witness : (1 : Nat) = 1 :=
  getNextPaxInQueue_position_one []
    [⟨7, "Ana".data, "52998224725".data, "5511999990000".data, none, false, false, 4⟩,
     ⟨8, "Bea".data, "11144477735".data, "5511999990001".data, none, false, false, 2⟩]
    ⟨8, "Bea".data, "11144477735".data, "5511999990001".data, none, false, false, 2⟩
    1 2 0 (by decide) (by decide)

/-! ### C2 and C3: sequence-id invariants of the queue mutations -/

theorem foldl_max_le (l : List PaxDoc) :
    ∀ init : Nat, init ≤ l.foldl (fun m p => max m p.sequenceId) init := by
  induction l with
  | nil => intro init; exact le_refl _
  | cons a rest ih =>
    intro init
    exact le_trans (Nat.le_max_left init a.sequenceId) (ih (max init a.sequenceId))

theorem mem_le_foldl_max (l : List PaxDoc) (p : PaxDoc) (hp : p ∈ l) :
    ∀ init : Nat, p.sequenceId ≤ l.foldl (fun m p => max m p.sequenceId) init := by
  induction l with
  | nil => cases hp
  | cons a rest ih =>
    intro init
    rcases List.mem_cons.mp hp with rfl | hm
    · exact le_trans (Nat.le_max_right init p.sequenceId)
        (foldl_max_le rest (max init p.sequenceId))
    · exact ih hm (max init a.sequenceId)

theorem mem_le_maxSeq (paxes : List PaxDoc) (p : PaxDoc) (hp : p ∈ paxes) :
    p.sequenceId ≤ maxSeq paxes :=
  mem_le_foldl_max paxes p hp 0

theorem mem_updateById (id : Nat) (f : PaxDoc → PaxDoc) (l : List PaxDoc)
    (x : PaxDoc) (hx : x ∈ updateById id f l) :
    x ∈ l ∨ ∃ p, p ∈ l ∧ x = f p := by
  induction l with
  | nil => cases hx
  | cons a rest ih =>
    unfold updateById at hx
    by_cases ha : a.paxId = id
    · rw [if_pos ha] at hx
      rcases List.mem_cons.mp hx with rfl | hm
      · exact Or.inr ⟨a, List.mem_cons_self a rest, rfl⟩
      · exact Or.inl (List.mem_cons_of_mem a hm)
    · rw [if_neg ha] at hx
      rcases List.mem_cons.mp hx with rfl | hm
      · exact Or.inl (List.mem_cons_self x rest)
      · rcases ih hm with h1 | ⟨p, hp, he⟩
        · exact Or.inl (List.mem_cons_of_mem a h1)
        · exact Or.inr ⟨p, List.mem_cons_of_mem a hp, he⟩

theorem updateById_reseq_nodup (id : Nat) (n : Nat) :
    ∀ l : List PaxDoc, (l.map fun p => p.sequenceId).Nodup →
      (∀ p ∈ l, p.sequenceId < n) →
      ((updateById id
          (fun p => { p with unavailable := true, sequenceId := n }) l).map
        fun p => p.sequenceId).Nodup := by
  intro l
  induction l with
  | nil => intro _ _; simp [updateById]
  | cons a rest ih =>
    intro hnd hlt
    simp only [List.map_cons, List.nodup_cons] at hnd
    unfold updateById
    by_cases ha : a.paxId = id
    · rw [if_pos ha]
      simp only [List.map_cons, List.nodup_cons]
      refine ⟨?_, hnd.2⟩
      intro hmem
      obtain ⟨q, hq, he⟩ := List.mem_map.mp hmem
      exact absurd he (Nat.ne_of_lt (hlt q (List.mem_cons_of_mem a hq)))
    · rw [if_neg ha]
      simp only [List.map_cons, List.nodup_cons]
      refine ⟨?_, ih hnd.2 (fun p hp => hlt p (List.mem_cons_of_mem a hp))⟩
      intro hmem
      obtain ⟨q, hq, he⟩ := List.mem_map.mp hmem
      rcases mem_updateById _ _ _ _ hq with h1 | ⟨p, hp, hqe⟩
      · exact hnd.1 (List.mem_map.mpr ⟨q, h1, he⟩)
      · rw [hqe] at he
        exact absurd he (Nat.ne_of_gt (hlt a (List.mem_cons_self a rest)))

theorem updateById_map_seq (id : Nat) (f : PaxDoc → PaxDoc)
    (hf : ∀ p, (f p).sequenceId = p.sequenceId) :
    ∀ l : List PaxDoc,
      ((updateById id f l).map fun p => p.sequenceId) = l.map fun p => p.sequenceId := by
  intro l
  induction l with
  | nil => rfl
  | cons a rest ih =>
    unfold updateById
    by_cases ha : a.paxId = id
    · rw [if_pos ha]; simp [hf a]
    · rw [if_neg ha]; simp [ih]

theorem markPaxAsUnavailable_keeps_distinct (id : Nat) (st : List PaxDoc)
    (h : SeqDistinct st) : SeqDistinct (markPaxAsUnavailable id st) :=
  updateById_reseq_nodup id (maxSeq st + 1) st h
    (fun p hp => Nat.lt_succ_of_le (mem_le_maxSeq st p hp))

theorem markPaxAsSent_keeps_distinct (id : Nat) (st : List PaxDoc)
    (h : SeqDistinct st) : SeqDistinct (markPaxAsSent id st) := by
  unfold SeqDistinct markPaxAsSent
  rw [updateById_map_seq id (fun p => { p with sent := true }) (fun p => rfl) st]
  exact h

theorem seqDistinct_append_fresh (st : List PaxDoc) (x : PaxDoc) (seqC : Nat)
    (hnd : SeqDistinct st) (hlt : ∀ p ∈ st, p.sequenceId < seqC)
    (hx : x.sequenceId = seqC) :
    SeqDistinct (st ++ [x]) ∧ ∀ p ∈ st ++ [x], p.sequenceId < seqC + 1 := by
  constructor
  · unfold SeqDistinct at hnd ⊢
    rw [List.map_append, List.nodup_append]
    refine ⟨hnd, List.nodup_singleton _, ?_⟩
    intro y hy hy2
    simp only [List.map_cons, List.map_nil, List.mem_singleton] at hy2
    obtain ⟨q, hq, he⟩ := List.mem_map.mp hy
    rw [hy2, hx] at he
    exact absurd he (Nat.ne_of_lt (hlt q hq))
  · intro p hp
    rcases List.mem_append.mp hp with h1 | h2
    · exact Nat.lt_succ_of_lt (hlt p h1)
    · simp only [List.mem_singleton] at h2
      rw [h2, hx]
      exact Nat.lt_succ_self seqC

theorem importGo_inv (ds : List PaxImportData) :
    ∀ (st : List PaxDoc) (seqC fid imp dup err : Nat),
      SeqDistinct st → (∀ p ∈ st, p.sequenceId < seqC) →
      SeqDistinct (importGo ds st seqC fid imp dup err).1 ∧
        ∀ p ∈ (importGo ds st seqC fid imp dup err).1,
          p.sequenceId < seqC + ds.length := by
  induction ds with
  | nil =>
    intro st seqC fid imp dup err hnd hlt
    exact ⟨hnd, fun p hp => by simpa using Nat.lt_of_lt_of_le (hlt p hp) (by omega)⟩
  | cons d ds ih =>
    intro st seqC fid imp dup err hnd hlt
    unfold importGo
    by_cases hdup : st.any (fun p => p.cpf == d.cpf)
    · rw [if_pos hdup]
      obtain ⟨h1, h2⟩ := ih st seqC fid imp (dup + 1) err hnd hlt
      exact ⟨h1, fun p hp => by
        have := h2 p hp; simp only [List.length_cons]; omega⟩
    · rw [if_neg hdup]
      by_cases herr : st.any (fun p =>
          p.cpf == trimStr d.cpf || p.sequenceId == seqC)
      · rw [if_pos herr]
        obtain ⟨h1, h2⟩ := ih st (seqC + 1) (fid + 1) imp dup (err + 1) hnd
          (fun p hp => Nat.lt_succ_of_lt (hlt p hp))
        exact ⟨h1, fun p hp => by
          have := h2 p hp; simp only [List.length_cons]; omega⟩
      · rw [if_neg herr]
        obtain ⟨hnd2, hlt2⟩ := seqDistinct_append_fresh st
          ⟨fid, trimStr d.name, trimStr d.cpf, trimStr d.phoneNumber,
            d.email.map trimStr, false, false, seqC⟩ seqC hnd hlt rfl
        obtain ⟨h1, h2⟩ := ih _ (seqC + 1) (fid + 1) (imp + 1) dup err hnd2 hlt2
        exact ⟨h1, fun p hp => by
          have := h2 p hp; simp only [List.length_cons]; omega⟩

theorem importPaxList_keeps_distinct (l : List PaxImportData) (st : List PaxDoc)
    (h : SeqDistinct st) : SeqDistinct (importPaxList l st).1 :=
  (importGo_inv l st (maxSeq st + 1) _ 0 0 0 h
    (fun p hp => Nat.lt_succ_of_le (mem_le_maxSeq st p hp))).1

/-- One administrative call against the outreach queue. -/
inductive QueueOp
  | importOp (l : List PaxImportData)
  | markSentOp (id : Nat)
  | markUnavailableOp (id : Nat)
deriving DecidableEq

/-- Apply one queue operation to the `pax` collection. -/
def applyQueueOp (st : List PaxDoc) : QueueOp → List PaxDoc
  | .importOp l => (importPaxList l st).1
  | .markSentOp id => markPaxAsSent id st
  | .markUnavailableOp id => markPaxAsUnavailable id st

/-- Apply a sequence of queue operations in order. -/
def applyQueueOps (st : List PaxDoc) (ops : List QueueOp) : List PaxDoc :=
  ops.foldl applyQueueOp st

/-- C2: starting from a collection with pairwise distinct `sequenceId`
values, any sequence of `importPaxList`, `markPaxAsSent` and
`markPaxAsUnavailable` calls leaves all `sequenceId` values pairwise
distinct. -/
theorem applyQueueOps_keeps_distinct (ops : List QueueOp) (st : List PaxDoc)
    (h : SeqDistinct st) : SeqDistinct (applyQueueOps st ops) := by
  induction ops generalizing st with
  | nil => exact h
  | cons op ops ih =>
    cases op with
    | importOp l => exact ih _ (importPaxList_keeps_distinct l st h)
    | markSentOp id => exact ih _ (markPaxAsSent_keeps_distinct id st h)
    | markUnavailableOp id => exact ih _ (markPaxAsUnavailable_keeps_distinct id st h)

/-- Witness for C2 at a concrete state and operation sequence. -/
theorem applyQueueOps_keeps_distinct_witness :
    SeqDistinct (applyQueueOps
      [⟨7, "Ana".data, "52998224725".data, "5511999990000".data, none, false, false, 1⟩]
      [.importOp [⟨"Bea".data, "11144477735".data, "5511999990001".data, none⟩],
       .markUnavailableOp 7, .markSentOp 8]) :=
  applyQueueOps_keeps_distinct _ _ (by decide)

theorem find?_updateById (id : Nat) (f : PaxDoc → PaxDoc)
    (hf : ∀ p, (f p).paxId = p.paxId) :
    ∀ (st : List PaxDoc) (p : PaxDoc),
      st.find? (fun q => q.paxId == id) = some p →
      (updateById id f st).find? (fun q => q.paxId == id) = some (f p) := by
  intro st
  induction st with
  | nil => intro p h; cases h
  | cons a rest ih =>
    intro p h
    by_cases ha : a.paxId = id
    · rw [List.find?_cons_of_pos _ (by simpa using ha)] at h
      obtain rfl := Option.some.inj h
      unfold updateById
      rw [if_pos ha]
      exact List.find?_cons_of_pos _ (by simpa using (hf a).trans ha)
    · rw [List.find?_cons_of_neg _ (by simpa using ha)] at h
      unfold updateById
      rw [if_neg ha]
      rw [List.find?_cons_of_neg _ (by simpa using ha)]
      exact ih p h

/-- C3: when the collection contains a document with the given id (and that
document is still pending, `sent = false`), `markPaxAsUnavailable` turns it
into a document with `unavailable = true`, `sent` still `false`, and a
`sequenceId` of current-max-plus-one, strictly greater than the `sequenceId`
every entry had at the moment of the call. -/
theorem markPaxAsUnavailable_c3 (st : List PaxDoc) (id : Nat) (p : PaxDoc)
    (hfind : st.find? (fun q => q.paxId == id) = some p)
    (hsent : p.sent = false) :
    ∃ r, (markPaxAsUnavailable id st).find? (fun q => q.paxId == id) = some r ∧
      r.unavailable = true ∧ r.sent = false ∧
      r.sequenceId = maxSeq st + 1 ∧
      ∀ q ∈ st, q.sequenceId < r.sequenceId := by
  refine ⟨{ p with unavailable := true, sequenceId := maxSeq st + 1 }, ?_, rfl,
    hsent, rfl, ?_⟩
  · exact find?_updateById id
      (fun q => { q with unavailable := true, sequenceId := maxSeq st + 1 })
      (fun q => rfl) st p hfind
  · intro q hq
    exact Nat.lt_succ_of_le (mem_le_maxSeq st q hq)

/-- Witness for C3 at a concrete queue state. -/
theorem markPaxAsUnavailable_c3_witness :
    ∃ r, (markPaxAsUnavailable 7
        [⟨7, "Ana".data, "52998224725".data, "5511999990000".data, none,
            false, false, 1⟩,
         ⟨8, "Bea".data, "11144477735".data, "5511999990001".data, none,
            false, false, 2⟩]).find? (fun q => q.paxId == 7) = some r ∧
      r.unavailable = true ∧ r.sent = false ∧
      r.sequenceId = maxSeq
        [⟨7, "Ana".data, "52998224725".data, "5511999990000".data, none,
            false, false, 1⟩,
         ⟨8, "Bea".data, "11144477735".data, "5511999990001".data, none,
            false, false, 2⟩] + 1 ∧
      ∀ q ∈ [(⟨7, "Ana".data, "52998224725".data, "5511999990000".data, none,
            false, false, 1⟩ : PaxDoc),
         ⟨8, "Bea".data, "11144477735".data, "5511999990001".data, none,
            false, false, 2⟩], q.sequenceId < r.sequenceId :=
  markPaxAsUnavailable_c3 _ 7
    ⟨7, "Ana".data, "52998224725".data, "5511999990000".data, none, false, false, 1⟩
    (by decide) (by decide)

/-! ## Lookup-key codec (src/services/QRCodeService.ts)

`generateQRCode` builds `JSON.stringify({ SearchKey: searchKey })`, base64
encodes its UTF-8 bytes (`Buffer.from(jsonString).toString('base64')`) and
renders that payload as a QR image; the image rendering is outside the codec
and is not modelled.  `decodeQRData` reverses the two codec steps
(`Buffer.from(base64Data, 'base64').toString('utf-8')`, `JSON.parse`) and
checks that the `SearchKey` field is a string.  The byte-level codecs are
modelled explicitly below with Node's actual semantics: `Buffer.from` with
the `base64` encoding never fails (it skips characters outside the table,
also accepts the URL-safe `-`/`_`, and stops at the first `=`), and
`toString('utf-8')` never fails either (the WHATWG decoder substitutes
U+FFFD for each maximal invalid subpart). -/

/-- The base64 alphabet. -/
def b64Alphabet : List Char :=
  "ABCDEFGHIJKLMNOPQRSTUVWXYZabcdefghijklmnopqrstuvwxyz0123456789+/".data

/-- Character for a 6-bit group. -/
def b64Char (n : Nat) : Char := b64Alphabet.getD n 'A'

/-- Index of a base64 character, `none` for characters outside the
alphabet (including the padding `=`). -/
def b64Index (c : Char) : Option Nat := b64Alphabet.findIdx? (fun x => x == c)

/-- Base64 encoding of a byte list, with `=` padding. -/
def base64Encode : List Nat → List Char
  | [] => []
  | [b1] => [b64Char (b1 / 4), b64Char (b1 % 4 * 16), '=', '=']
  | [b1, b2] =>
    [b64Char (b1 / 4), b64Char (b1 % 4 * 16 + b2 / 16), b64Char (b2 % 16 * 4), '=']
  | b1 :: b2 :: b3 :: rest =>
    b64Char (b1 / 4) :: b64Char (b1 % 4 * 16 + b2 / 16) ::
      b64Char (b2 % 16 * 4 + b3 / 64) :: b64Char (b3 % 64) :: base64Encode rest

theorem b64Char_ne_pad : ∀ s : Nat, s < 64 → b64Char s ≠ '=' := by
  decide

/-- Node's base64 digit table (`Buffer.from(_, 'base64')`): the standard
alphabet plus the URL-safe `-` (62) and `_` (63). -/
def b64IndexNode (c : Char) : Option Nat :=
  if c = '-' then some 62 else if c = '_' then some 63 else b64Index c

theorem b64IndexNode_b64Char :
    ∀ s : Nat, s < 64 → b64IndexNode (b64Char s) = some s := by
  decide

/-- The 6-bit groups Node's base64 decoder reads: it stops at the first
`=` and skips every character outside the table. -/
def b64Sextets : List Char → List Nat
  | [] => []
  | c :: rest =>
    if c = '=' then []
    else
      match b64IndexNode c with
      | some s => s :: b64Sextets rest
      | none => b64Sextets rest

/-- Reassemble bytes from 6-bit groups as Node does: full groups of four
give three bytes; a trailing group of three gives two bytes, of two gives
one byte, and a single trailing sextet is dropped. -/
def sextetsToBytes : List Nat → List Nat
  | s1 :: s2 :: s3 :: s4 :: rest =>
    (s1 * 4 + s2 / 16) :: (s2 % 16 * 16 + s3 / 4) :: (s3 % 4 * 64 + s4) ::
      sextetsToBytes rest
  | [s1, s2, s3] => [s1 * 4 + s2 / 16, s2 % 16 * 16 + s3 / 4]
  | [s1, s2] => [s1 * 4 + s2 / 16]
  | _ => []

/-- `Buffer.from(s, 'base64')`: Node's lenient decoder; it never fails. -/
def bufferFromBase64 (l : List Char) : List Nat :=
  sextetsToBytes (b64Sextets l)

/-- The 6-bit groups `base64Encode` emits before padding, for the round-trip
proof. -/
def rawSextets : List Nat → List Nat
  | [] => []
  | [b1] => [b1 / 4, b1 % 4 * 16]
  | [b1, b2] => [b1 / 4, b1 % 4 * 16 + b2 / 16, b2 % 16 * 4]
  | b1 :: b2 :: b3 :: rest =>
    b1 / 4 :: (b1 % 4 * 16 + b2 / 16) :: (b2 % 16 * 4 + b3 / 64) :: b3 % 64 ::
      rawSextets rest

theorem b64Sextets_encode :
    ∀ bs : List Nat, (∀ b ∈ bs, b < 256) →
      b64Sextets (base64Encode bs) = rawSextets bs := by
  intro bs
  induction bs using base64Encode.induct with
  | case1 =>
    intro _
    simp only [base64Encode, b64Sextets, rawSextets]
  | case2 b1 =>
    intro hb
    have h1 : b1 < 256 := hb b1 (by simp)
    simp only [base64Encode, b64Sextets, rawSextets,
      if_neg (b64Char_ne_pad (b1 / 4) (by omega)),
      b64IndexNode_b64Char (b1 / 4) (by omega),
      if_neg (b64Char_ne_pad (b1 % 4 * 16) (by omega)),
      b64IndexNode_b64Char (b1 % 4 * 16) (by omega),
      reduceIte]
  | case3 b1 b2 =>
    intro hb
    have h1 : b1 < 256 := hb b1 (by simp)
    have h2 : b2 < 256 := hb b2 (by simp)
    simp only [base64Encode, b64Sextets, rawSextets,
      if_neg (b64Char_ne_pad (b1 / 4) (by omega)),
      b64IndexNode_b64Char (b1 / 4) (by omega),
      if_neg (b64Char_ne_pad (b1 % 4 * 16 + b2 / 16) (by omega)),
      b64IndexNode_b64Char (b1 % 4 * 16 + b2 / 16) (by omega),
      if_neg (b64Char_ne_pad (b2 % 16 * 4) (by omega)),
      b64IndexNode_b64Char (b2 % 16 * 4) (by omega),
      reduceIte]
  | case4 b1 b2 b3 rest ih =>
    intro hb
    have h1 : b1 < 256 := hb b1 (by simp)
    have h2 : b2 < 256 := hb b2 (by simp)
    have h3 : b3 < 256 := hb b3 (by simp)
    have hrest : ∀ b ∈ rest, b < 256 := fun b hbr => hb b (by simp [hbr])
    simp only [base64Encode, b64Sextets, rawSextets,
      if_neg (b64Char_ne_pad (b1 / 4) (by omega)),
      b64IndexNode_b64Char (b1 / 4) (by omega),
      if_neg (b64Char_ne_pad (b1 % 4 * 16 + b2 / 16) (by omega)),
      b64IndexNode_b64Char (b1 % 4 * 16 + b2 / 16) (by omega),
      if_neg (b64Char_ne_pad (b2 % 16 * 4 + b3 / 64) (by omega)),
      b64IndexNode_b64Char (b2 % 16 * 4 + b3 / 64) (by omega),
      if_neg (b64Char_ne_pad (b3 % 64) (by omega)),
      b64IndexNode_b64Char (b3 % 64) (by omega),
      ih hrest]

theorem sextetsToBytes_raw :
    ∀ bs : List Nat, (∀ b ∈ bs, b < 256) →
      sextetsToBytes (rawSextets bs) = bs := by
  intro bs
  induction bs using base64Encode.induct with
  | case1 =>
    intro _
    simp only [rawSextets, sextetsToBytes]
  | case2 b1 =>
    intro hb
    have h1 : b1 < 256 := hb b1 (by simp)
    simp only [rawSextets, sextetsToBytes, List.cons.injEq, and_true]
    omega
  | case3 b1 b2 =>
    intro hb
    have h1 : b1 < 256 := hb b1 (by simp)
    have h2 : b2 < 256 := hb b2 (by simp)
    simp only [rawSextets, sextetsToBytes, List.cons.injEq, and_true]
    constructor
    · omega
    · omega
  | case4 b1 b2 b3 rest ih =>
    intro hb
    have h1 : b1 < 256 := hb b1 (by simp)
    have h2 : b2 < 256 := hb b2 (by simp)
    have h3 : b3 < 256 := hb b3 (by simp)
    have hrest : ∀ b ∈ rest, b < 256 := fun b hbr => hb b (by simp [hbr])
    simp only [rawSextets, sextetsToBytes, ih hrest, List.cons.injEq, and_true]
    refine ⟨by omega, by omega, by omega⟩

theorem base64_node_roundtrip (bs : List Nat) (hb : ∀ b ∈ bs, b < 256) :
    bufferFromBase64 (base64Encode bs) = bs := by
  unfold bufferFromBase64
  rw [b64Sextets_encode bs hb, sextetsToBytes_raw bs hb]

/-- UTF-8 encoding of a single Unicode code point. -/
def utf8EncodeCp (n : Nat) : List Nat :=
  if n < 0x80 then [n]
  else if n < 0x800 then [0xC0 + n / 64, 0x80 + n % 64]
  else if n < 0x10000 then [0xE0 + n / 4096, 0x80 + n / 64 % 64, 0x80 + n % 64]
  else [0xF0 + n / 262144, 0x80 + n / 4096 % 64, 0x80 + n / 64 % 64, 0x80 + n % 64]

/-- UTF-8 encoding of a string (`Buffer.from(jsonString)`). -/
def utf8Encode : List Char → List Nat
  | [] => []
  | c :: cs => utf8EncodeCp c.toNat ++ utf8Encode cs

theorem char_toNat_lt (c : Char) : c.toNat < 0x110000 := by
  have h := c.valid
  rcases h with h1 | ⟨-, h2⟩
  · exact Nat.lt_trans h1 (by decide)
  · exact h2

theorem utf8EncodeCp_bytes_lt (c : Char) :
    ∀ b ∈ utf8EncodeCp c.toNat, b < 256 := by
  have h := char_toNat_lt c
  unfold utf8EncodeCp
  intro b hb
  split_ifs at hb <;>
    simp only [List.mem_cons, List.mem_singleton, List.not_mem_nil, or_false] at hb <;>
    rcases hb with rfl | hb <;> omega

theorem utf8Encode_bytes_lt (l : List Char) : ∀ b ∈ utf8Encode l, b < 256 := by
  induction l with
  | nil => intro b hb; cases hb
  | cons c cs ih =>
    intro b hb
    unfold utf8Encode at hb
    rcases List.mem_append.mp hb with h1 | h2
    · exact utf8EncodeCp_bytes_lt c b h1
    · exact ih b h2

/-- Decode one code point (or one U+FFFD substitution) from a lead byte and
the following bytes, returning the remaining input: the WHATWG UTF-8
decoder used by `Buffer.prototype.toString('utf-8')`.  Overlong forms,
surrogates and out-of-range leads are invalid; an invalid byte after a valid
prefix is reconsumed (maximal-subpart substitution). -/
def utf8NodeStep (b : Nat) (rest : List Nat) : Nat × List Nat :=
  if b < 0x80 then (b, rest)
  else if b < 0xC2 then (0xFFFD, rest)
  else if b < 0xE0 then
    match rest with
    | b2 :: rest2 =>
      if 0x80 ≤ b2 ∧ b2 < 0xC0 then ((b - 0xC0) * 64 + (b2 - 0x80), rest2)
      else (0xFFFD, rest)
    | [] => (0xFFFD, [])
  else if b < 0xF0 then
    match rest with
    | b2 :: rest2 =>
      if (if b = 0xE0 then 0xA0 else 0x80) ≤ b2 ∧
          b2 < (if b = 0xED then 0xA0 else 0xC0) then
        match rest2 with
        | b3 :: rest3 =>
          if 0x80 ≤ b3 ∧ b3 < 0xC0 then
            ((b - 0xE0) * 4096 + (b2 - 0x80) * 64 + (b3 - 0x80), rest3)
          else (0xFFFD, rest2)
        | [] => (0xFFFD, [])
      else (0xFFFD, rest)
    | [] => (0xFFFD, [])
  else if b < 0xF5 then
    match rest with
    | b2 :: rest2 =>
      if (if b = 0xF0 then 0x90 else 0x80) ≤ b2 ∧
          b2 < (if b = 0xF4 then 0x90 else 0xC0) then
        match rest2 with
        | b3 :: rest3 =>
          if 0x80 ≤ b3 ∧ b3 < 0xC0 then
            match rest3 with
            | b4 :: rest4 =>
              if 0x80 ≤ b4 ∧ b4 < 0xC0 then
                ((b - 0xF0) * 262144 + (b2 - 0x80) * 4096 + (b3 - 0x80) * 64 +
                  (b4 - 0x80), rest4)
              else (0xFFFD, rest3)
            | [] => (0xFFFD, [])
          else (0xFFFD, rest2)
        | [] => (0xFFFD, [])
      else (0xFFFD, rest)
    | [] => (0xFFFD, [])
  else (0xFFFD, rest)

theorem utf8NodeStep_le (b : Nat) (rest : List Nat) :
    (utf8NodeStep b rest).2.length ≤ rest.length := by
  unfold utf8NodeStep
  repeat' split
  all_goals simp_all
  all_goals omega

/-- `Buffer.from(bytes).toString('utf-8')`: total, never fails. -/
def bufferToStringUtf8 : (l : List Nat) → List Char
  | [] => []
  | b :: rest =>
    Char.ofNat (utf8NodeStep b rest).1 ::
      bufferToStringUtf8 (utf8NodeStep b rest).2
termination_by l => l.length
decreasing_by
  have h := utf8NodeStep_le b rest
  simp only [List.length_cons]
  omega

theorem bufferToStringUtf8_nil : bufferToStringUtf8 [] = [] := by
  rw [bufferToStringUtf8.eq_def]

theorem bufferToStringUtf8_cons (b : Nat) (rest : List Nat) :
    bufferToStringUtf8 (b :: rest) =
      Char.ofNat (utf8NodeStep b rest).1 ::
        bufferToStringUtf8 (utf8NodeStep b rest).2 := by
  rw [bufferToStringUtf8.eq_def]

theorem bufferToStringUtf8_encodeCp (c : Char) (bs : List Nat) :
    bufferToStringUtf8 (utf8EncodeCp c.toNat ++ bs) = c :: bufferToStringUtf8 bs := by
  have hlt := char_toNat_lt c
  have hd : c.toNat < 0xD800 ∨ 0xDFFF < c.toNat := by
    rcases c.valid with h1 | ⟨h2, -⟩
    · exact Or.inl h1
    · exact Or.inr h2
  by_cases h1 : c.toNat < 0x80
  · rw [utf8EncodeCp, if_pos h1, List.singleton_append, bufferToStringUtf8_cons]
    have hstep : utf8NodeStep c.toNat bs = (c.toNat, bs) := by
      unfold utf8NodeStep
      rw [if_pos h1]
    rw [hstep, Char.ofNat_toNat]
  · by_cases h2 : c.toNat < 0x800
    · rw [utf8EncodeCp, if_neg h1, if_pos h2, List.cons_append, List.cons_append,
        List.nil_append, bufferToStringUtf8_cons]
      have hstep : utf8NodeStep (0xC0 + c.toNat / 64) ((0x80 + c.toNat % 64) :: bs)
          = (c.toNat, bs) := by
        unfold utf8NodeStep
        rw [if_neg (by omega), if_neg (by omega), if_pos (by omega)]
        dsimp only []
        rw [if_pos (by omega)]
        simp only [Prod.mk.injEq, and_true]
        omega
      rw [hstep, Char.ofNat_toNat]
    · by_cases h3 : c.toNat < 0x10000
      · rw [utf8EncodeCp, if_neg h1, if_neg h2, if_pos h3, List.cons_append,
          List.cons_append, List.cons_append, List.nil_append,
          bufferToStringUtf8_cons]
        have hstep : utf8NodeStep (0xE0 + c.toNat / 4096)
            ((0x80 + c.toNat / 64 % 64) :: (0x80 + c.toNat % 64) :: bs)
            = (c.toNat, bs) := by
          unfold utf8NodeStep
          rw [if_neg (by omega), if_neg (by omega), if_neg (by omega),
            if_pos (by omega)]
          try dsimp only []
          rw [if_pos (by constructor <;> split_ifs <;> omega)]
          try dsimp only []
          rw [if_pos (by omega)]
          simp only [Prod.mk.injEq, and_true]
          omega
        rw [hstep, Char.ofNat_toNat]
      · rw [utf8EncodeCp, if_neg h1, if_neg h2, if_neg h3, List.cons_append,
          List.cons_append, List.cons_append, List.cons_append, List.nil_append,
          bufferToStringUtf8_cons]
        have hstep : utf8NodeStep (0xF0 + c.toNat / 262144)
            ((0x80 + c.toNat / 4096 % 64) :: (0x80 + c.toNat / 64 % 64) ::
              (0x80 + c.toNat % 64) :: bs)
            = (c.toNat, bs) := by
          unfold utf8NodeStep
          rw [if_neg (by omega), if_neg (by omega), if_neg (by omega),
            if_neg (by omega), if_pos (by omega)]
          try dsimp only []
          rw [if_pos (by constructor <;> split_ifs <;> omega)]
          try dsimp only []
          rw [if_pos (by omega)]
          try dsimp only []
          rw [if_pos (by omega)]
          simp only [Prod.mk.injEq, and_true]
          omega
        rw [hstep, Char.ofNat_toNat]

theorem utf8_node_roundtrip (l : List Char) :
    bufferToStringUtf8 (utf8Encode l) = l := by
  induction l with
  | nil => exact bufferToStringUtf8_nil
  | cons c cs ih =>
    rw [utf8Encode, bufferToStringUtf8_encodeCp c (utf8Encode cs), ih]

/-! ### JSON text of `{"SearchKey": k}` and `JSON.parse`

`JSON.stringify` output for the one-field object: no whitespace, the key
unescaped, the value a JSON string literal with the standard escapes
(`\"`, `\\`, `\b`, `\t`, `\n`, `\f`, `\r`, and `\u00XX` for the remaining
control characters, lowercase hex).  `JSON.parse` is modelled in full below:
the string-literal grammar first (escapes including `\uXXXX` and surrogate
pairs), then the complete value grammar with whitespace, `true`/`false`/
`null`, arrays, objects (duplicate keys kept in order) and the number
token. -/

/-- Lowercase hex digit. -/
def hexDigitChar (n : Nat) : Char := "0123456789abcdef".data.getD n '0'

/-- JSON escape of one character, as `JSON.stringify` emits it. -/
def escChar (c : Char) : List Char :=
  if c = '"' then ['\\', '"']
  else if c = '\\' then ['\\', '\\']
  else if c = '\x08' then ['\\', 'b']
  else if c = '\x09' then ['\\', 't']
  else if c = '\x0a' then ['\\', 'n']
  else if c = '\x0c' then ['\\', 'f']
  else if c = '\x0d' then ['\\', 'r']
  else if c.toNat < 0x20 then
    ['\\', 'u', '0', '0', hexDigitChar (c.toNat / 16), hexDigitChar (c.toNat % 16)]
  else [c]

/-- JSON escape of a string body. -/
def escBody : List Char → List Char
  | [] => []
  | c :: cs => escChar c ++ escBody cs

/-- A JSON string literal. -/
def jsonQuote (l : List Char) : List Char := '"' :: escBody l ++ ['"']

/-- `JSON.stringify({ SearchKey: k })`. -/
def stringifyQR (k : List Char) : List Char :=
  "\x7b\x22SearchKey\x22:".data ++ jsonQuote k ++ "\x7d".data

/-- Value of one hex digit (JSON accepts both cases). -/
def parseHex (c : Char) : Option Nat :=
  if '0' ≤ c ∧ c ≤ '9' then some (c.toNat - 48)
  else if 'a' ≤ c ∧ c ≤ 'f' then some (c.toNat - 87)
  else if 'A' ≤ c ∧ c ≤ 'F' then some (c.toNat - 55)
  else none

/-- Decode a `\u` escape: four hex digits; a high-surrogate code unit
followed by another `\u` escape holding a low surrogate is combined into the
astral code point, as JavaScript strings do.  A lone surrogate code unit
produces a JavaScript string that a Lean `Char` cannot represent (`Char` is
a Unicode scalar value); it collapses to `Char.ofNat`'s default, while the
parse still succeeds, matching `JSON.parse`'s acceptance. -/
def parseEscU (r : List Char) : Option (Char × List Char) :=
  match r with
  | h1 :: h2 :: h3 :: h4 :: r4 =>
    match parseHex h1, parseHex h2, parseHex h3, parseHex h4 with
    | some a1, some a2, some a3, some a4 =>
      let a := a1 * 4096 + a2 * 256 + a3 * 16 + a4
      if 0xD800 ≤ a ∧ a ≤ 0xDBFF then
        match r4 with
        | e2 :: u2 :: g1 :: g2 :: g3 :: g4 :: r8 =>
          if e2 = '\\' ∧ u2 = 'u' then
            match parseHex g1, parseHex g2, parseHex g3, parseHex g4 with
            | some c1, some c2, some c3, some c4 =>
              let b := c1 * 4096 + c2 * 256 + c3 * 16 + c4
              if 0xDC00 ≤ b ∧ b ≤ 0xDFFF then
                some (Char.ofNat (0x10000 + (a - 0xD800) * 1024 + (b - 0xDC00)), r8)
              else some (Char.ofNat a, r4)
            | _, _, _, _ => some (Char.ofNat a, r4)
          else some (Char.ofNat a, r4)
        | _ => some (Char.ofNat a, r4)
      else some (Char.ofNat a, r4)
    | _, _, _, _ => none
  | _ => none

theorem parseEscU_shrinks (r : List Char) (d : Char) (r3 : List Char)
    (h : parseEscU r = some (d, r3)) : r3.length ≤ r.length := by
  rw [parseEscU.eq_def] at h
  split at h
  case _ h1 h2 h3 h4 r4 =>
    split at h
    case _ =>
      dsimp only [] at h
      split_ifs at h
      · split at h
        case _ e2 u2 g1 g2 g3 g4 r8 =>
          split_ifs at h
          · split at h
            case _ =>
              split_ifs at h
              all_goals obtain ⟨-, rfl⟩ := Option.some.inj h |> Prod.mk.inj
              all_goals simp
              all_goals try omega
            case _ =>
              obtain ⟨-, rfl⟩ := Option.some.inj h |> Prod.mk.inj
              simp
              try omega
          · obtain ⟨-, rfl⟩ := Option.some.inj h |> Prod.mk.inj
            simp
            try omega
        case _ =>
          obtain ⟨-, rfl⟩ := Option.some.inj h |> Prod.mk.inj
          simp
          try omega
      · obtain ⟨-, rfl⟩ := Option.some.inj h |> Prod.mk.inj
        simp
        try omega
    case _ => cases h
  case _ => cases h

/-- Decode the escape sequence after a backslash: the denoted character and
the remaining input. -/
def parseEsc (e : Char) (r : List Char) : Option (Char × List Char) :=
  if e = '"' then some ('"', r)
  else if e = '\\' then some ('\\', r)
  else if e = '/' then some ('/', r)
  else if e = 'b' then some ('\x08', r)
  else if e = 'f' then some ('\x0c', r)
  else if e = 'n' then some ('\x0a', r)
  else if e = 'r' then some ('\x0d', r)
  else if e = 't' then some ('\x09', r)
  else if e = 'u' then parseEscU r
  else none

theorem parseEsc_shrinks (e : Char) (r : List Char) (d : Char) (r3 : List Char)
    (h : parseEsc e r = some (d, r3)) : r3.length ≤ r.length := by
  rw [parseEsc.eq_def] at h
  split_ifs at h
  all_goals first
  | (obtain ⟨-, rfl⟩ := Option.some.inj h |> Prod.mk.inj; exact le_refl _)
  | (exact parseEscU_shrinks r d r3 h)
  | cases h

/-- JSON string-literal body parser: input after the opening quote, returns
the string content and the input after the closing quote. -/
def parseStringBody (l : List Char) : Option (List Char × List Char) :=
  match l with
  | [] => none
  | c :: rest =>
    if c = '"' then some ([], rest)
    else if c = '\\' then
      match rest with
      | [] => none
      | e :: rest2 =>
        match h : parseEsc e rest2 with
        | some (d, rest3) =>
          (parseStringBody rest3).map (fun p => (d :: p.1, p.2))
        | none => none
    else if c.toNat < 0x20 then none
    else (parseStringBody rest).map (fun p => (c :: p.1, p.2))
termination_by l.length
decreasing_by
  · have := parseEsc_shrinks _ _ _ _ h
    simp only [List.length_cons]
    omega
  · simp only [List.length_cons]
    omega

theorem psb_quote (rest : List Char) : parseStringBody ('"' :: rest) = some ([], rest) := by
  rw [parseStringBody.eq_def]
  dsimp only []
  rw [if_pos rfl]

theorem psb_esc (e : Char) (rest2 : List Char) (d : Char) (rest3 : List Char)
    (h : parseEsc e rest2 = some (d, rest3)) :
    parseStringBody ('\\' :: e :: rest2) =
      (parseStringBody rest3).map (fun p => (d :: p.1, p.2)) := by
  rw [parseStringBody.eq_def]
  dsimp only []
  rw [if_neg (by decide), if_pos rfl]
  split
  case _ d2 r2 hs =>
    rw [h] at hs
    obtain ⟨rfl, rfl⟩ := Option.some.inj hs |> Prod.mk.inj
    rfl
  case _ hs => rw [h] at hs; cases hs

theorem psb_raw (c : Char) (rest : List Char) (h1 : ¬ c = '"') (h2 : ¬ c = '\\')
    (h3 : ¬ c.toNat < 0x20) :
    parseStringBody (c :: rest) =
      (parseStringBody rest).map (fun p => (c :: p.1, p.2)) := by
  rw [parseStringBody.eq_def]
  dsimp only []
  rw [if_neg h1, if_neg h2, if_neg h3]

theorem psb_shrinks (l s r : List Char) (h : parseStringBody l = some (s, r)) :
    r.length < l.length := by
  induction l using parseStringBody.induct generalizing s r
  case case1 =>
    rw [parseStringBody.eq_def] at h
    exact Option.noConfusion h
  case case2 =>
    rw [psb_quote] at h
    obtain ⟨rfl, rfl⟩ := Option.some.inj h |> Prod.mk.inj
    simp
  case case3 =>
    rw [parseStringBody.eq_def] at h
    dsimp only [] at h
    rw [if_neg (by decide), if_pos rfl] at h
    exact Option.noConfusion h
  case case4 e rest2 d rest3 h1 hne ih =>
    rw [psb_esc _ _ _ _ h1] at h
    cases hm : parseStringBody rest3 with
    | none => rw [hm] at h; simp at h
    | some p =>
      obtain ⟨ps, pr⟩ := p
      rw [hm] at h
      simp at h
      obtain ⟨rfl, rfl⟩ := h
      have h2 := ih ps pr hm
      have h3 := parseEsc_shrinks _ _ _ _ h1
      simp only [List.length_cons]
      omega
  case case5 e rest2 h1 hne =>
    rw [parseStringBody.eq_def] at h
    dsimp only [] at h
    rw [if_neg (by decide), if_pos rfl] at h
    split at h
    case _ hs => rw [h1] at hs; exact Option.noConfusion hs
    case _ => exact Option.noConfusion h
  case case6 e rest2 hq hb hc =>
    rw [parseStringBody.eq_def] at h
    dsimp only [] at h
    rw [if_neg hq, if_neg hb, if_pos hc] at h
    exact Option.noConfusion h
  case case7 e rest2 hq hb hc ih =>
    rw [psb_raw e rest2 hq hb hc] at h
    cases hm : parseStringBody rest2 with
    | none => rw [hm] at h; simp at h
    | some p =>
      obtain ⟨ps, pr⟩ := p
      rw [hm] at h
      simp at h
      obtain ⟨rfl, rfl⟩ := h
      have h2 := ih ps pr hm
      simp only [List.length_cons]
      omega

theorem parseEsc_quote (r : List Char) : parseEsc '"' r = some ('"', r) := by
  rw [parseEsc.eq_def, if_pos rfl]

theorem parseEsc_backslash (r : List Char) : parseEsc '\\' r = some ('\\', r) := by
  rw [parseEsc.eq_def, if_neg (by decide), if_pos rfl]

theorem parseEsc_b (r : List Char) : parseEsc 'b' r = some ('\x08', r) := by
  rw [parseEsc.eq_def, if_neg (by decide), if_neg (by decide), if_neg (by decide),
    if_pos rfl]

theorem parseEsc_f (r : List Char) : parseEsc 'f' r = some ('\x0c', r) := by
  rw [parseEsc.eq_def, if_neg (by decide), if_neg (by decide), if_neg (by decide),
    if_neg (by decide), if_pos rfl]

theorem parseEsc_n (r : List Char) : parseEsc 'n' r = some ('\x0a', r) := by
  rw [parseEsc.eq_def, if_neg (by decide), if_neg (by decide), if_neg (by decide),
    if_neg (by decide), if_neg (by decide), if_pos rfl]

theorem parseEsc_r (r : List Char) : parseEsc 'r' r = some ('\x0d', r) := by
  rw [parseEsc.eq_def, if_neg (by decide), if_neg (by decide), if_neg (by decide),
    if_neg (by decide), if_neg (by decide), if_neg (by decide), if_pos rfl]

theorem parseEsc_t (r : List Char) : parseEsc 't' r = some ('\x09', r) := by
  rw [parseEsc.eq_def, if_neg (by decide), if_neg (by decide), if_neg (by decide),
    if_neg (by decide), if_neg (by decide), if_neg (by decide), if_neg (by decide),
    if_pos rfl]

theorem parseHex_hexDigitChar : ∀ n : Nat, n < 16 → parseHex (hexDigitChar n) = some n := by
  decide

theorem parseHex_zeroChar : parseHex '0' = some 0 := by decide

theorem parseEsc_u (x1 x2 x3 x4 : Char) (r : List Char) (a1 a2 a3 a4 : Nat)
    (e1 : parseHex x1 = some a1) (e2 : parseHex x2 = some a2)
    (e3 : parseHex x3 = some a3) (e4 : parseHex x4 = some a4)
    (hlow : a1 * 4096 + a2 * 256 + a3 * 16 + a4 < 0xD800) :
    parseEsc 'u' (x1 :: x2 :: x3 :: x4 :: r) =
      some (Char.ofNat (a1 * 4096 + a2 * 256 + a3 * 16 + a4), r) := by
  rw [parseEsc.eq_def, if_neg (by decide), if_neg (by decide), if_neg (by decide),
    if_neg (by decide), if_neg (by decide), if_neg (by decide), if_neg (by decide),
    if_neg (by decide), if_pos rfl]
  rw [parseEscU.eq_def]
  dsimp only []
  rw [e1, e2, e3, e4]
  dsimp only []
  rw [if_neg (by omega)]

theorem psb_escBody (k : List Char) :
    ∀ rest : List Char, parseStringBody (escBody k ++ '"' :: rest) = some (k, rest) := by
  induction k with
  | nil =>
    intro rest
    rw [escBody, List.nil_append]
    exact psb_quote rest
  | cons c cs ih =>
    intro rest
    rw [escBody, List.append_assoc, escChar]
    by_cases hc1 : c = '"'
    · rw [if_pos hc1, List.cons_append, List.cons_append, List.nil_append]
      rw [psb_esc _ _ _ _ (parseEsc_quote _), ih rest]
      rw [hc1]
      rfl
    · rw [if_neg hc1]
      by_cases hc2 : c = '\\'
      · rw [if_pos hc2, List.cons_append, List.cons_append, List.nil_append]
        rw [psb_esc _ _ _ _ (parseEsc_backslash _), ih rest]
        rw [hc2]
        rfl
      · rw [if_neg hc2]
        by_cases hc3 : c = '\x08'
        · rw [if_pos hc3, List.cons_append, List.cons_append, List.nil_append]
          rw [psb_esc _ _ _ _ (parseEsc_b _), ih rest]
          rw [hc3]
          rfl
        · rw [if_neg hc3]
          by_cases hc4 : c = '\x09'
          · rw [if_pos hc4, List.cons_append, List.cons_append, List.nil_append]
            rw [psb_esc _ _ _ _ (parseEsc_t _), ih rest]
            rw [hc4]
            rfl
          · rw [if_neg hc4]
            by_cases hc5 : c = '\x0a'
            · rw [if_pos hc5, List.cons_append, List.cons_append, List.nil_append]
              rw [psb_esc _ _ _ _ (parseEsc_n _), ih rest]
              rw [hc5]
              rfl
            · rw [if_neg hc5]
              by_cases hc6 : c = '\x0c'
              · rw [if_pos hc6, List.cons_append, List.cons_append, List.nil_append]
                rw [psb_esc _ _ _ _ (parseEsc_f _), ih rest]
                rw [hc6]
                rfl
              · rw [if_neg hc6]
                by_cases hc7 : c = '\x0d'
                · rw [if_pos hc7, List.cons_append, List.cons_append,
                    List.nil_append]
                  rw [psb_esc _ _ _ _ (parseEsc_r _), ih rest]
                  rw [hc7]
                  rfl
                · rw [if_neg hc7]
                  by_cases hc8 : c.toNat < 0x20
                  · rw [if_pos hc8]
                    simp only [List.cons_append, List.nil_append]
                    rw [psb_esc _ _ _ _ (parseEsc_u '0' '0'
                      (hexDigitChar (c.toNat / 16)) (hexDigitChar (c.toNat % 16))
                      _ 0 0 (c.toNat / 16) (c.toNat % 16)
                      parseHex_zeroChar parseHex_zeroChar
                      (parseHex_hexDigitChar _ (by omega))
                      (parseHex_hexDigitChar _ (by omega)) (by omega))]
                    have hv : 0 * 4096 + 0 * 256 + c.toNat / 16 * 16 + c.toNat % 16
                        = c.toNat := by omega
                    rw [hv, Char.ofNat_toNat, ih rest]
                    rfl
                  · rw [if_neg hc8, List.singleton_append]
                    rw [psb_raw c _ hc1 hc2 hc8, ih rest]
                    rfl

/-- Drop an expected literal from the front of the input, or fail. -/
def dropLit (pre l : List Char) : Option (List Char) :=
  if pre.isPrefixOf l then some (l.drop pre.length) else none

/-- A parsed JSON value.  Number tokens are validated by the grammar but
their numeric value is not retained (`decodeQRData` only ever asks whether
a field is a string); object members keep every member in source order
(JavaScript property lookup then sees the last duplicate). -/
inductive JValue where
  | jnull
  | jbool (b : Bool)
  | jnum
  | jstr (s : List Char)
  | jarr (elems : List JValue)
  | jobj (fields : List (List Char × JValue))

/-- Skip JSON whitespace (space, tab, line feed, carriage return). -/
def skipWs (l : List Char) : List Char :=
  l.dropWhile (fun c => c == ' ' || c == '\x09' || c == '\x0a' || c == '\x0d')

theorem length_dropWhile_le (p : Char → Bool) (l : List Char) :
    (l.dropWhile p).length ≤ l.length := by
  induction l with
  | nil => exact le_refl _
  | cons a rest ih =>
    rw [List.dropWhile_cons]
    split_ifs
    · exact le_trans ih (Nat.le_succ _)
    · exact le_refl _

theorem skipWs_le (l : List Char) : (skipWs l).length ≤ l.length :=
  length_dropWhile_le _ l

theorem skipWs_cons (c : Char) (l : List Char)
    (h : (c == ' ' || c == '\x09' || c == '\x0a' || c == '\x0d') = false) :
    skipWs (c :: l) = c :: l := by
  unfold skipWs
  rw [List.dropWhile_cons]
  simp [h]

theorem dropLit_le (pre l r : List Char) (h : dropLit pre l = some r) :
    r.length ≤ l.length := by
  unfold dropLit at h
  split_ifs at h
  obtain rfl := Option.some.inj h
  simpa using List.length_drop_le _ _

/-- One or more decimal digits, maximal munch. -/
def digits1 (l : List Char) : Option (List Char) :=
  match l with
  | c :: rest => if c.isDigit then some (rest.dropWhile Char.isDigit) else none
  | [] => none

/-- Integer part of a JSON number after the optional minus: `0`, or a
nonzero digit followed by further digits (no leading zeros). -/
def parseNumInt (l : List Char) : Option (List Char) :=
  match l with
  | c :: rest =>
    if c = '0' then some rest
    else if c.isDigit then some (rest.dropWhile Char.isDigit)
    else none
  | [] => none

/-- Optional fraction part: a `.` must be followed by one or more digits. -/
def parseNumFrac (l : List Char) : Option (List Char) :=
  match l with
  | c :: rest => if c = '.' then digits1 rest else some (c :: rest)
  | [] => some []

/-- Optional exponent part: `e`/`E`, an optional sign, one or more digits. -/
def parseNumExp (l : List Char) : Option (List Char) :=
  match l with
  | c :: rest =>
    if c = 'e' ∨ c = 'E' then
      match rest with
      | c2 :: rest2 => if c2 = '+' ∨ c2 = '-' then digits1 rest2 else digits1 rest
      | [] => none
    else some (c :: rest)
  | [] => some []

/-- The JSON number token
`-?(0|[1-9][0-9]*)(\.[0-9]+)?([eE][+-]?[0-9]+)?`: consume it, `none` when
the input does not start with a well-formed number. -/
def parseNumber (l : List Char) : Option (List Char) :=
  match l with
  | c :: rest =>
    match parseNumInt (if c = '-' then rest else c :: rest) with
    | some r1 =>
      match parseNumFrac r1 with
      | some r2 => parseNumExp r2
      | none => none
    | none => none
  | [] => none

theorem digits1_lt (l r : List Char) (h : digits1 l = some r) :
    r.length < l.length := by
  match l, h with
  | c :: rest, h =>
    rw [digits1.eq_def] at h
    dsimp only [] at h
    split_ifs at h
    obtain rfl := Option.some.inj h
    have := length_dropWhile_le Char.isDigit rest
    simp only [List.length_cons]
    omega

theorem parseNumInt_lt (l r : List Char) (h : parseNumInt l = some r) :
    r.length < l.length := by
  match l, h with
  | c :: rest, h =>
    rw [parseNumInt.eq_def] at h
    dsimp only [] at h
    split_ifs at h
    · obtain rfl := Option.some.inj h
      simp
    · obtain rfl := Option.some.inj h
      have := length_dropWhile_le Char.isDigit rest
      simp only [List.length_cons]
      omega

theorem parseNumFrac_le (l r : List Char) (h : parseNumFrac l = some r) :
    r.length ≤ l.length := by
  match l, h with
  | [], h =>
    obtain rfl := Option.some.inj h
    exact le_refl _
  | c :: rest, h =>
    rw [parseNumFrac.eq_def] at h
    dsimp only [] at h
    split_ifs at h
    · have := digits1_lt rest r h
      simp only [List.length_cons]
      omega
    · obtain rfl := Option.some.inj h
      exact le_refl _

theorem parseNumExp_le (l r : List Char) (h : parseNumExp l = some r) :
    r.length ≤ l.length := by
  match l, h with
  | [], h =>
    obtain rfl := Option.some.inj h
    exact le_refl _
  | c :: rest, h =>
    rw [parseNumExp.eq_def] at h
    dsimp only [] at h
    split_ifs at h
    · match rest, h with
      | c2 :: rest2, h =>
        dsimp only [] at h
        split_ifs at h
        · have := digits1_lt rest2 r h
          simp only [List.length_cons]
          omega
        · have := digits1_lt (c2 :: rest2) r h
          simp only [List.length_cons] at *
          omega
    · obtain rfl := Option.some.inj h
      exact le_refl _

theorem parseNumber_shrinks (l r : List Char) (h : parseNumber l = some r) :
    r.length < l.length := by
  match l, h with
  | c :: rest, h =>
    rw [parseNumber.eq_def] at h
    dsimp only [] at h
    have hbody : (if c = '-' then rest else c :: rest).length ≤ (c :: rest).length := by
      split_ifs <;> simp
    split at h
    case _ r1 h1 =>
      split at h
      case _ r2 h2 =>
        have e1 := parseNumInt_lt _ _ h1
        have e2 := parseNumFrac_le _ _ h2
        have e3 := parseNumExp_le _ _ h
        omega
      case _ => cases h
    case _ => cases h

mutual

/-- One JSON value, by the first significant character: a string literal, a
literal `true`/`false`/`null`, an array, an object, or a number token.  The
returned remainder carries its length bound for termination. -/
def jsonValue : (l : List Char) → Option (JValue × { r : List Char // r.length < l.length })
  | [] => none
  | c :: rest =>
    if c = '"' then
      match hs : parseStringBody rest with
      | some (s, r) => some (.jstr s, ⟨r, Nat.lt_succ_of_lt (psb_shrinks rest s r hs)⟩)
      | none => none
    else if c = 't' then
      match hd : dropLit "rue".data rest with
      | some r => some (.jbool true, ⟨r, Nat.lt_succ_of_le (dropLit_le _ rest r hd)⟩)
      | none => none
    else if c = 'f' then
      match hd : dropLit "alse".data rest with
      | some r => some (.jbool false, ⟨r, Nat.lt_succ_of_le (dropLit_le _ rest r hd)⟩)
      | none => none
    else if c = 'n' then
      match hd : dropLit "ull".data rest with
      | some r => some (.jnull, ⟨r, Nat.lt_succ_of_le (dropLit_le _ rest r hd)⟩)
      | none => none
    else if c = '[' then
      match skipWs rest, skipWs_le rest with
      | ']' :: r2, hw => some (.jarr [], ⟨r2, by simp only [List.length_cons] at *; omega⟩)
      | l2, hw =>
        match he : jsonElements1 l2 with
        | some (vs, ⟨r2, h2⟩) => some (.jarr vs, ⟨r2, by simp only [List.length_cons] at *; omega⟩)
        | none => none
    else if c = '\x7b' then
      match skipWs rest, skipWs_le rest with
      | '\x7d' :: r2, hw => some (.jobj [], ⟨r2, by simp only [List.length_cons] at *; omega⟩)
      | l2, hw =>
        match hm : jsonMembers1 l2 with
        | some (fs, ⟨r2, h2⟩) => some (.jobj fs, ⟨r2, by simp only [List.length_cons] at *; omega⟩)
        | none => none
    else
      match hn : parseNumber (c :: rest) with
      | some r => some (.jnum, ⟨r, parseNumber_shrinks _ r hn⟩)
      | none => none
termination_by l => (l.length, 0)
decreasing_by
  all_goals simp_wf
  all_goals first
  | (apply Prod.Lex.right; omega)
  | (apply Prod.Lex.left
     try have hq0 := skipWs_le rest
     try have hq := psb_shrinks rest key r2 hk
     try have hq2 := skipWs_le r4
     try have hq3 := skipWs_le r7
     try have hq4 := skipWs_le r3
     try have hw4 : r4.length + 1 ≤ r2.length := by simpa using hw
     simp only [List.length_cons] at *
     omega)

/-- One or more array elements, starting at the first element's first
significant character: `value (ws `,` ws value)* ws `]`². -/
def jsonElements1 (l : List Char) :
    Option (List JValue × { r : List Char // r.length < l.length }) :=
    match hv : jsonValue l with
    | some (v, ⟨r, hr⟩) =>
      (match skipWs r, skipWs_le r with
       | ',' :: r3, hw =>
         match he : jsonElements1 (skipWs r3) with
         | some (vs, ⟨r4, h4⟩) =>
           some (v :: vs, ⟨r4, by
             have h5 := skipWs_le r3
             simp only [List.length_cons] at *
             omega⟩)
         | none => none
       | ']' :: r3, hw => some ([v], ⟨r3, by simp only [List.length_cons] at *; omega⟩)
       | _, _ => none)
    | none => none
termination_by (l.length, 1)
decreasing_by
  all_goals simp_wf
  all_goals first
  | (apply Prod.Lex.right; omega)
  | (apply Prod.Lex.left
     try have hq0 := skipWs_le rest
     try have hq := psb_shrinks rest key r2 hk
     try have hq2 := skipWs_le r4
     try have hq3 := skipWs_le r7
     try have hq4 := skipWs_le r3
     try have hw4 : r4.length + 1 ≤ r2.length := by simpa using hw
     simp only [List.length_cons] at *
     omega)

/-- One or more object members, starting at the first key's opening quote:
`key ws `:` ws value (ws `,` ws member)* ws` followed by the closing
brace. -/
def jsonMembers1 : (l : List Char) →
    Option (List (List Char × JValue) × { r : List Char // r.length < l.length })
  | [] => none
  | c :: rest =>
    if c = '"' then
      match hk : parseStringBody rest with
      | some (key, r2) =>
        (match skipWs r2, skipWs_le r2 with
         | ':' :: r4, hw =>
           match hv : jsonValue (skipWs r4) with
           | some (v, ⟨r5, h5⟩) =>
             (match skipWs r5, skipWs_le r5 with
              | ',' :: r7, hw2 =>
                (match hm : jsonMembers1 (skipWs r7) with
                 | some (fs, ⟨r8, h8⟩) =>
                   some ((key, v) :: fs, ⟨r8, by
                     have hq := psb_shrinks rest key r2 hk
                     have hq2 := skipWs_le r4
                     have hq3 := skipWs_le r7
                     simp only [List.length_cons] at *
                     omega⟩)
                 | none => none)
              | '\x7d' :: r7, hw2 =>
                some ([(key, v)], ⟨r7, by
                  have hq := psb_shrinks rest key r2 hk
                  have hq2 := skipWs_le r4
                  simp only [List.length_cons] at *
                  omega⟩)
              | _, _ => none)
           | none => none
         | _, _ => none)
      | none => none
    else none
termination_by l => (l.length, 1)
decreasing_by
  all_goals simp_wf
  all_goals first
  | (apply Prod.Lex.right; omega)
  | (apply Prod.Lex.left
     try have hq0 := skipWs_le rest
     try have hq := psb_shrinks rest key r2 hk
     try have hq2 := skipWs_le r4
     try have hq3 := skipWs_le r7
     try have hq4 := skipWs_le r3
     try have hw4 : r4.length + 1 ≤ r2.length := by simpa using hw
     simp only [List.length_cons] at *
     omega)

end

/-- `jsonValue` without the length bound on the remainder. -/
def jsonValueP (l : List Char) : Option (JValue × List Char) :=
  (jsonValue l).map (fun p => (p.1, p.2.val))

/-- `jsonMembers1` without the length bound on the remainder. -/
def jsonMembers1P (l : List Char) : Option (List (List Char × JValue) × List Char) :=
  (jsonMembers1 l).map (fun p => (p.1, p.2.val))

/-- `JSON.parse`: optional whitespace, one value, optional whitespace,
end of input. -/
def jsonParse (l : List Char) : Option JValue :=
  match jsonValueP (skipWs l) with
  | some (v, r) => if skipWs r = [] then some v else none
  | none => none

/-- The check `data && typeof data.SearchKey === 'string'` as a lookup:
`null`, booleans, numbers, strings and arrays have no own `SearchKey`
property (or are falsy), so only an object with a `"SearchKey"` member can
pass, and JavaScript property lookup sees the last duplicate. -/
def propSearchKey (v : JValue) : Option JValue :=
  match v with
  | .jobj fields =>
    (fields.filter (fun f => f.1 == "SearchKey".data)).getLast?.map (fun f => f.2)
  | _ => none

/-- The decoded object shape (`QRCodeData`): a `SearchKey` field. -/
structure QRData where
  SearchKey : List Char
deriving DecidableEq

/-- The codec part of `QRCodeService.generateQRCode` (steps 1–2): the base64
payload that the QR image carries. -/
def generateQRCodePayload (k : List Char) : List Char :=
  base64Encode (utf8Encode (stringifyQR k))

/-- `QRCodeService.decodeQRData`: base64-decode (never fails), UTF-8 decode
(never fails), `JSON.parse` (its exception is the `catch` that returns
`null`), then return the object when `SearchKey` is a string, `null`
(`none`) otherwise. -/
def decodeQRData (payload : List Char) : Option QRData :=
  match jsonParse (bufferToStringUtf8 (bufferFromBase64 payload)) with
  | some v =>
    match propSearchKey v with
    | some (.jstr s) => some ⟨s⟩
    | _ => none
  | none => none

/-! Symbolic evaluation of the parser on the canonical text
`{"SearchKey":<string>}` that `JSON.stringify` produces. -/

theorem jsonValueP_str (r1 s r2 : List Char) (h : parseStringBody r1 = some (s, r2)) :
    jsonValueP ('"' :: r1) = some (.jstr s, r2) := by
  unfold jsonValueP
  rw [jsonValue.eq_def]
  dsimp only []
  rw [if_pos rfl]
  split
  case _ s2 r3 hs =>
    rw [h] at hs
    obtain ⟨rfl, rfl⟩ := Option.some.inj hs |> Prod.mk.inj
    rfl
  case _ hs => rw [h] at hs; cases hs

theorem jsonMembers1P_single (key v rest : List Char) :
    jsonMembers1P ('"' :: (escBody key ++ '"' :: ':' :: '"' ::
        (escBody v ++ '"' :: '\x7d' :: rest)))
      = some ([(key, .jstr v)], rest) := by
  unfold jsonMembers1P
  rw [jsonMembers1.eq_def]
  dsimp only []
  rw [if_pos rfl]
  split
  · rename_i key2 r2 hk
    rw [psb_escBody key (':' :: '"' :: (escBody v ++ '"' :: '\x7d' :: rest))] at hk
    obtain ⟨rfl, rfl⟩ := Option.some.inj hk |> Prod.mk.inj
    split
    · rename_i r4 hw heq hheq
      rw [skipWs_cons ':' _ (by decide)] at heq
      obtain ⟨-, rfl⟩ := List.cons.inj heq
      split
      · rename_i v2 r5 h5 hv
        have hvP : jsonValueP (skipWs ('"' :: (escBody v ++ '"' :: '\x7d' :: rest)))
            = some (v2, r5) := by
          unfold jsonValueP
          rw [hv]
          rfl
        rw [skipWs_cons '"' _ (by decide),
          jsonValueP_str _ _ _ (psb_escBody v ('\x7d' :: rest))] at hvP
        obtain ⟨rfl, rfl⟩ := Option.some.inj hvP.symm |> Prod.mk.inj
        split
        · rename_i r7 hw2 heq2 hheq2
          rw [skipWs_cons '\x7d' _ (by decide)] at heq2
          exact absurd (List.cons.inj heq2).1 (by decide)
        · rename_i r7 hw2 heq2 hheq2
          rw [skipWs_cons '\x7d' _ (by decide)] at heq2
          obtain ⟨-, rfl⟩ := List.cons.inj heq2
          rfl
        · rename_i hne1 hne2
          exact (hne2 rest (le_refl _) (skipWs_cons '\x7d' _ (by decide))
            (proof_irrel_heq _ _)).elim
      · rename_i hv
        rw [skipWs_cons '"' _ (by decide)] at hv
        have hvP : jsonValueP ('"' :: (escBody v ++ '"' :: '\x7d' :: rest)) = none := by
          unfold jsonValueP
          rw [hv]
          rfl
        rw [jsonValueP_str _ _ _ (psb_escBody v ('\x7d' :: rest))] at hvP
        cases hvP
    · rename_i hne
      exact (hne ('"' :: (escBody v ++ '"' :: '\x7d' :: rest)) (le_refl _)
        (skipWs_cons ':' _ (by decide)) (proof_irrel_heq _ _)).elim
  · rename_i hk
    rw [psb_escBody key (':' :: '"' :: (escBody v ++ '"' :: '\x7d' :: rest))] at hk
    cases hk

theorem jsonValueP_objSingle (key v rest : List Char) :
    jsonValueP ('\x7b' :: '"' :: (escBody key ++ '"' :: ':' :: '"' ::
        (escBody v ++ '"' :: '\x7d' :: rest)))
      = some (.jobj [(key, .jstr v)], rest) := by
  unfold jsonValueP
  rw [jsonValue.eq_def]
  dsimp only []
  rw [if_neg (by decide), if_neg (by decide), if_neg (by decide),
    if_neg (by decide), if_neg (by decide), if_pos rfl]
  split
  · rename_i r2 hw heq hheq
    rw [skipWs_cons '"' _ (by decide)] at heq
    exact absurd (List.cons.inj heq).1 (by decide)
  · rename_i x1 x2 hne
    split
    · rename_i fs r2 h2 hm
      have hmP : jsonMembers1P (skipWs ('"' :: (escBody key ++ '"' :: ':' :: '"' ::
          (escBody v ++ '"' :: '\x7d' :: rest)))) = some (fs, r2) := by
        unfold jsonMembers1P
        rw [hm]
        rfl
      rw [skipWs_cons '"' _ (by decide), jsonMembers1P_single key v rest] at hmP
      obtain ⟨rfl, rfl⟩ := Option.some.inj hmP.symm |> Prod.mk.inj
      rfl
    · rename_i hm
      have hmP : jsonMembers1P (skipWs ('"' :: (escBody key ++ '"' :: ':' :: '"' ::
          (escBody v ++ '"' :: '\x7d' :: rest)))) = none := by
        unfold jsonMembers1P
        rw [hm]
        rfl
      rw [skipWs_cons '"' _ (by decide), jsonMembers1P_single key v rest] at hmP
      cases hmP

theorem jsonParse_stringifyQR (k : List Char) :
    jsonParse (stringifyQR k) = some (.jobj [("SearchKey".data, .jstr k)]) := by
  have hshape : stringifyQR k = '\x7b' :: '"' :: (escBody "SearchKey".data ++
      '"' :: ':' :: '"' :: (escBody k ++ '"' :: '\x7d' :: [])) := by
    unfold stringifyQR jsonQuote
    rw [show escBody "SearchKey".data = "SearchKey".data from by decide]
    simp
  rw [hshape]
  unfold jsonParse
  rw [skipWs_cons '\x7b' _ (by decide), jsonValueP_objSingle "SearchKey".data k []]
  rfl

/-- C6: codec round-trip — for every non-empty search key `k`, decoding the
base64 payload built by `generateQRCode` yields exactly the object
`⟨SearchKey := k⟩`, independent of the image rendering. -/
theorem qr_codec_roundtrip (k : List Char) (hk : k ≠ []) :
    decodeQRData (generateQRCodePayload k) = some ⟨k⟩ := by
  unfold decodeQRData generateQRCodePayload
  rw [base64_node_roundtrip (utf8Encode (stringifyQR k)) (utf8Encode_bytes_lt _),
    utf8_node_roundtrip (stringifyQR k), jsonParse_stringifyQR k]
  dsimp only []
  rw [show propSearchKey (.jobj [("SearchKey".data, .jstr k)]) = some (.jstr k)
    from by unfold propSearchKey; simp]

/-- Witness for C6 at the concrete key `XYZ`. -/
theorem qr_codec_roundtrip_witness :
    decodeQRData (generateQRCodePayload "XYZ".data) = some ⟨"XYZ".data⟩ :=
  qr_codec_roundtrip "XYZ".data (by decide)

/-- Counterexample for C7: the payload carrying `SearchKey = ""` (the base64
text `eyJTZWFyY2hLZXkiOiIifQ==`, i.e. the object with an empty-string
`SearchKey`) is *accepted* by `decodeQRData`, which returns the object
instead of reporting failure: the code checks only that `SearchKey` is a
string, not that it is non-empty. -/
theorem decodeQRData_accepts_empty :
    decodeQRData "eyJTZWFyY2hLZXkiOiIifQ==".data = some ⟨[]⟩ := by
  have hpayload : "eyJTZWFyY2hLZXkiOiIifQ==".data = generateQRCodePayload [] := by
    decide
  rw [hpayload]
  unfold decodeQRData generateQRCodePayload
  rw [base64_node_roundtrip (utf8Encode (stringifyQR [])) (utf8Encode_bytes_lt _),
    utf8_node_roundtrip (stringifyQR []), jsonParse_stringifyQR []]
  rfl

/-- C7 as amended: `decodeQRData` returns the decoded object whenever the
decoded bytes parse as JSON with a `SearchKey` field that is a string —
including the empty string — and reports failure exactly when `JSON.parse`
fails or `SearchKey` is absent or not a string; non-emptiness is not
checked.  The base64 and UTF-8 steps never fail. -/
theorem decodeQRData_amended (payload : List Char) :
    (∀ (v : JValue) (s : List Char),
        jsonParse (bufferToStringUtf8 (bufferFromBase64 payload)) = some v →
        propSearchKey v = some (.jstr s) →
        decodeQRData payload = some ⟨s⟩) ∧
    (∀ v : JValue,
        jsonParse (bufferToStringUtf8 (bufferFromBase64 payload)) = some v →
        (∀ s : List Char, propSearchKey v ≠ some (.jstr s)) →
        decodeQRData payload = none) ∧
    (jsonParse (bufferToStringUtf8 (bufferFromBase64 payload)) = none →
        decodeQRData payload = none) := by
  refine ⟨?_, ?_, ?_⟩
  · intro v s hj hp
    unfold decodeQRData
    rw [hj]
    dsimp only []
    rw [hp]
  · intro v hj hns
    unfold decodeQRData
    rw [hj]
    dsimp only []
    match hp : propSearchKey v with
    | none => rfl
    | some .jnull => rfl
    | some (.jbool b) => rfl
    | some .jnum => rfl
    | some (.jstr s) => exact absurd hp (hns s)
    | some (.jarr es) => rfl
    | some (.jobj fs) => rfl
  · intro hj
    unfold decodeQRData
    rw [hj]

/-- Witness for the amended C7 at the empty-`SearchKey` payload. -/
theorem decodeQRData_amended_witness :
    decodeQRData "eyJTZWFyY2hLZXkiOiIifQ==".data = some ⟨[]⟩ :=
  (decodeQRData_amended "eyJTZWFyY2hLZXkiOiIifQ==".data).1
    (.jobj [("SearchKey".data, .jstr [])]) []
    (by rw [show "eyJTZWFyY2hLZXkiOiIifQ==".data = generateQRCodePayload []
          from by decide]
        unfold generateQRCodePayload
        rw [base64_node_roundtrip (utf8Encode (stringifyQR []))
            (utf8Encode_bytes_lt _),
          utf8_node_roundtrip (stringifyQR []), jsonParse_stringifyQR []])
    (by unfold propSearchKey; simp)

/-! ## Intake flow (src/services/ConversationService.ts, stateless version)

The simplified stateless flow: `processMessage` records the inbound message,
then (with the deployment configured for the tax-ID flow,
`config.bot.flowType = 'cpf'`) dispatches to `processCPFFlow`.  External
collaborators are a parameter (`ConvEnv`): `AZListService.validateCPF` and
the gateway send methods guard their whole bodies with `try/catch` and always
resolve, so they are total; `QRCode.toDataURL` is a bare library call that
can reject, so it is `Except`-valued — it is the only awaited step of the
flow that can throw, and the `catch` of `processCPF` is compiled into the
`Except.error` branch.  `saveMessage` swallows its own errors and appends to
the message log.  Each call returns its result plus a trace of gateway
calls, saved message documents and registry lookups. -/

/-- The part of the registry's user data the flow reads. -/
structure UserData where
  searchKey : List Char
deriving DecidableEq

/-- `CPFValidationResult` as consumed by the flow. -/
structure LookupResult where
  found : Bool
  userData : Option UserData
deriving DecidableEq

/-- One outbound gateway call. -/
inductive GatewayCall
  | text (phone body : List Char)
  | image (phone imageBase64 caption : List Char)
deriving DecidableEq

/-- Observable effects of one turn. -/
structure ConvTrace where
  calls : List GatewayCall
  saved : List MessageDoc
  lookups : List (List Char)
deriving DecidableEq

/-- The external collaborators of the flow. -/
structure ConvEnv where
  lookup : List Char → LookupResult
  qrToDataUrl : List Char → Except Unit (List Char)
  sendText : List Char → List Char → Bool
  sendImage : List Char → List Char → List Char → Bool

/-- Action tag of `MessageProcessingResult`. -/
inductive ConvAction
  | initial_prompt
  | cpf_found
  | cpf_not_found
  | email_found
  | email_not_found
  | error
deriving DecidableEq

/-- `MessageProcessingResult`. -/
structure MessageProcessingResult where
  success : Bool
  action : ConvAction
  messagesSent : Nat
  error : Option (List Char)
deriving DecidableEq

/-- `MESSAGES.INVALID_CPF`. -/
def msgInvalidCpf : List Char :=
  "CPF inválido. Tente novamente (apenas números, 11 dígitos).".data

/-- `MESSAGES.NOT_FOUND`. -/
def msgNotFound : List Char :=
  "Que pena, não foi possível localizar o seu agendamento.\n\nCaso já tenha feito o agendamento, verifique o horário e o seu QR Code de acesso no link abaixo:\nhttps://www.azcorporate.com.br/bvolt/46110/fenty".data

/-- `MESSAGES.FOUND_CAPTION`. -/
def msgFoundCaption : List Char :=
  "APRESENTE NA ENTRADA – NÃO REPASSE PARA NINGUÉM".data

/-- The fixed generic error text sent by the `catch` of `processCPF`. -/
def genericErrorMessage : List Char :=
  "Desculpe, ocorreu um erro interno. Tente novamente em alguns minutos.".data

/-- Modelled from the spec: `getInitialPrompt('cpf')` is declared in the
messages configuration module, which is not among the sources here (only its
caller is); the spec only requires a fixed initial-prompt text for the
tax-ID flow, taken here from the repository's `MESSAGES.INITIAL_PROMPT`. -/
def getInitialPromptCpf : List Char :=
  "Olá, aqui você pode consultar o seu QR Code de acesso para o FENTY BEAUTY COFFEE PARTY!\n\nDigite o seu CPF (00000000000 ou 000.000.000-00).".data

/-- Modelled from the spec: `getInvalidFormatMessage('cpf')` is declared in
the same missing messages module; the spec only requires a fixed
invalid-format text for the tax-ID flow, taken here from the repository's
`MESSAGES.INVALID_CPF`. -/
def getInvalidFormatMessageCpf : List Char := msgInvalidCpf

/-- `sendInitialPrompt`. -/
def sendInitialPrompt (_env : ConvEnv) (phone : List Char) :
    MessageProcessingResult × ConvTrace :=
  (⟨true, .initial_prompt, 1, none⟩,
   ⟨[.text phone getInitialPromptCpf],
    [⟨phone, getInitialPromptCpf, .dirOut, .text, false⟩], []⟩)

/-- `sendInvalidMessage` (tax-ID flow). -/
def sendInvalidMessage (_env : ConvEnv) (phone : List Char) :
    MessageProcessingResult × ConvTrace :=
  (⟨true, .cpf_not_found, 1, none⟩,
   ⟨[.text phone getInvalidFormatMessageCpf],
    [⟨phone, getInvalidFormatMessageCpf, .dirOut, .text, false⟩], []⟩)

/-- `sendInvalidCpfMessage`. -/
def sendInvalidCpfMessage (_env : ConvEnv) (phone : List Char) :
    MessageProcessingResult × ConvTrace :=
  (⟨true, .cpf_not_found, 1, none⟩,
   ⟨[.text phone msgInvalidCpf],
    [⟨phone, msgInvalidCpf, .dirOut, .text, false⟩], []⟩)

/-- The hand-built QR payload string of `processCPF`:
`'{"SearchKey": "' + searchKey + '"}'` (plain concatenation, a space after
the colon, no escaping). -/
def qrKeyJson (searchKey : List Char) : List Char :=
  "\x7b\x22SearchKey\x22: \x22".data ++ searchKey ++ "\x22\x7d".data

/-- `qrCodeDataUrl.replace(/^data:image\/(png|jpg|jpeg);base64,/, '')`. -/
def stripDataUrl (u : List Char) : List Char :=
  match dropLit "data:image/png;base64,".data u with
  | some r => r
  | none =>
    match dropLit "data:image/jpg;base64,".data u with
    | some r => r
    | none =>
      match dropLit "data:image/jpeg;base64,".data u with
      | some r => r
      | none => u

/-- `ConversationService.processCPF`: format checks, registry lookup, QR
generation and delivery; its `catch` sends the fixed generic error text and
returns an error result. -/
def processCPF (env : ConvEnv) (phone cpf : List Char) :
    MessageProcessingResult × ConvTrace :=
  if ¬ (cpf.length = 11 ∧ cpf.all (fun c => c.isDigit)) then
    sendInvalidCpfMessage env phone
  else if isRepdigitCpf cpf then sendInvalidCpfMessage env phone
  else if ¬ isValidCpf cpf then sendInvalidCpfMessage env phone
  else
    let validation := env.lookup cpf
    match validation.found, validation.userData with
    | true, some u =>
      let searchKey := if u.searchKey.isEmpty then cpf else u.searchKey
      let qrCodeBase64 := base64Encode (utf8Encode (qrKeyJson searchKey))
      match env.qrToDataUrl qrCodeBase64 with
      | .error _ =>
        (⟨false, .error, 1, some "Error processing CPF".data⟩,
         ⟨[.text phone genericErrorMessage],
          [⟨phone, genericErrorMessage, .dirOut, .text, false⟩], [cpf]⟩)
      | .ok dataUrl =>
        (⟨true, .cpf_found, 1, none⟩,
         ⟨[.image phone (stripDataUrl dataUrl) msgFoundCaption],
          [⟨phone, msgFoundCaption, .dirOut, .image, true⟩], [cpf]⟩)
    | _, _ =>
      (⟨true, .cpf_not_found, 1, none⟩,
       ⟨[.text phone msgNotFound],
        [⟨phone, msgNotFound, .dirOut, .text, false⟩], [cpf]⟩)

/-- `ConversationService.processCPFFlow`: classify the inbound text by its
digit content. -/
def processCPFFlow (env : ConvEnv) (phone text : List Char) :
    MessageProcessingResult × ConvTrace :=
  let numbersOnly := text.filter (fun c => c.isDigit)
  if numbersOnly.length = 0 then sendInitialPrompt env phone
  else if numbersOnly.length = 11 then processCPF env phone numbersOnly
  else if numbersOnly.length = 10 then processCPF env phone ('0' :: numbersOnly)
  else sendInvalidMessage env phone

/-- `ConversationService.processMessage` for the tax-ID deployment: record
the inbound message, then run the tax-ID flow.  Everything below the
top-level `try` is total, so its `catch` is unreachable and the function is
total: no exception reaches the caller. -/
def processMessage (env : ConvEnv) (phone text : List Char) :
    MessageProcessingResult × ConvTrace :=
  ((processCPFFlow env phone text).1,
   ⟨(processCPFFlow env phone text).2.calls,
    ⟨phone, text, .dirIn, .text, false⟩ :: (processCPFFlow env phone text).2.saved,
    (processCPFFlow env phone text).2.lookups⟩)

/-! ### C5, C8, C9: properties of the intake flow -/

/-- The error result and trace produced by the `catch` of `processCPF`. -/
def processCPFErrorOutcome (phone cpf : List Char) :
    MessageProcessingResult × ConvTrace :=
  (⟨false, .error, 1, some "Error processing CPF".data⟩,
   ⟨[.text phone genericErrorMessage],
    [⟨phone, genericErrorMessage, .dirOut, .text, false⟩], [cpf]⟩)

theorem processCPF_cases (env : ConvEnv) (phone cpf : List Char) :
    (processCPF env phone cpf).1.success = true ∨
      processCPF env phone cpf = processCPFErrorOutcome phone cpf := by
  unfold processCPF processCPFErrorOutcome
  split_ifs
  all_goals try (left; rfl)
  all_goals dsimp only []
  all_goals split
  case _ => split
            case _ => right; rfl
            case _ => left; rfl
  case _ => left; rfl

theorem processCPF_error_handled (env : ConvEnv) (phone cpf : List Char)
    (h : (processCPF env phone cpf).1.success = false) :
    (processCPF env phone cpf).1.action = .error ∧
      GatewayCall.text phone genericErrorMessage ∈ (processCPF env phone cpf).2.calls ∧
      (processCPF env phone cpf).1.messagesSent = 1 := by
  rcases processCPF_cases env phone cpf with hs | he
  · rw [hs] at h; cases h
  · rw [he]
    exact ⟨rfl, List.mem_singleton.mpr rfl, rfl⟩

/-- C5: `processMessage` is a total function of the environment and the
inbound message (no exception reaches its caller), and whenever the embedded
turn fails — which happens exactly when the one fallible awaited step, the
QR-generation call, rejects — the fixed generic error text has been sent to
the user and the call returns an error result. -/
theorem processMessage_never_crashes (env : ConvEnv) (phone text : List Char)
    (h : (processMessage env phone text).1.success = false) :
    (processMessage env phone text).1.action = .error ∧
      GatewayCall.text phone genericErrorMessage ∈
        (processMessage env phone text).2.calls ∧
      (processMessage env phone text).1.messagesSent = 1 := by
  have h2 : (processCPFFlow env phone text).1.success = false := h
  show (processCPFFlow env phone text).1.action = .error ∧
    GatewayCall.text phone genericErrorMessage ∈
      (processCPFFlow env phone text).2.calls ∧
    (processCPFFlow env phone text).1.messagesSent = 1
  unfold processCPFFlow at h2 ⊢
  dsimp only [] at h2 ⊢
  split_ifs at h2 ⊢
  · simp [sendInitialPrompt] at h2
  · exact processCPF_error_handled env phone _ h2
  · exact processCPF_error_handled env phone _ h2
  · simp [sendInvalidMessage] at h2

/-- Environment used by the concrete witnesses: the registry finds every
identifier and QR generation always rejects. -/
def envQRFails : ConvEnv :=
  ⟨fun _ => ⟨true, some ⟨"KEY".data⟩⟩, fun _ => .error (),
   fun _ _ => true, fun _ _ _ => true⟩

/-- Witness for C5: a turn whose QR-generation step throws. -/
theorem processMessage_never_crashes_witness :
    (processMessage envQRFails "5511999990000".data "52998224725".data).1.action
        = .error ∧
      GatewayCall.text "5511999990000".data genericErrorMessage ∈
        (processMessage envQRFails "5511999990000".data "52998224725".data).2.calls ∧
      (processMessage envQRFails "5511999990000".data
        "52998224725".data).1.messagesSent = 1 :=
  processMessage_never_crashes envQRFails "5511999990000".data "52998224725".data
    (by decide)

theorem filter_isDigit_idem (text : List Char) :
    (text.filter (fun c => c.isDigit)).filter (fun c => c.isDigit) =
      text.filter (fun c => c.isDigit) :=
  List.filter_eq_self.mpr (fun c hc => List.of_mem_filter hc)

/-- C8: when the inbound text contains exactly 10 digits, the flow left-pads
one zero and classifies exactly as it classifies the zero-padded 11-digit
string: the two runs are equal (same result, same sends, saves and
lookups). -/
theorem processCPFFlow_pads_zero (env : ConvEnv) (phone text : List Char)
    (h : (text.filter (fun c => c.isDigit)).length = 10) :
    processCPFFlow env phone text =
      processCPFFlow env phone ('0' :: text.filter (fun c => c.isDigit)) := by
  have hfilter : ('0' :: text.filter (fun c => c.isDigit)).filter
      (fun c => c.isDigit) = '0' :: text.filter (fun c => c.isDigit) := by
    rw [List.filter_cons_of_pos (by decide), filter_isDigit_idem]
  unfold processCPFFlow
  rw [hfilter]
  dsimp only []
  rw [if_neg (by omega), if_neg (by omega), if_pos h]
  rw [if_neg (by simp), if_pos (by simp [h])]

/-- Witness for C8 at a concrete 10-digit message. -/
theorem processCPFFlow_pads_zero_witness :
    processCPFFlow envQRFails "5511999990000".data "2998224725".data =
      processCPFFlow envQRFails "5511999990000".data
        ('0' :: "2998224725".data.filter (fun c => c.isDigit)) :=
  processCPFFlow_pads_zero envQRFails "5511999990000".data "2998224725".data
    (by decide)

/-- C9: in tax-ID mode, a message with no digits produces exactly one
outbound text — the initial prompt — and no registry lookup; a message whose
digit count is neither 0, 10 nor 11 produces exactly one outbound
invalid-format text and no registry lookup. -/
theorem processMessage_prompt_and_invalid (env : ConvEnv) (phone text : List Char) :
    ((text.filter (fun c => c.isDigit)).length = 0 →
      (processMessage env phone text).2.calls = [.text phone getInitialPromptCpf] ∧
        (processMessage env phone text).2.lookups = []) ∧
    ((text.filter (fun c => c.isDigit)).length ≠ 0 →
      (text.filter (fun c => c.isDigit)).length ≠ 10 →
      (text.filter (fun c => c.isDigit)).length ≠ 11 →
      (processMessage env phone text).2.calls =
          [.text phone getInvalidFormatMessageCpf] ∧
        (processMessage env phone text).2.lookups = []) := by
  constructor
  · intro h0
    have hc : (processMessage env phone text).2.calls =
        (processCPFFlow env phone text).2.calls := rfl
    have hl : (processMessage env phone text).2.lookups =
        (processCPFFlow env phone text).2.lookups := rfl
    rw [hc, hl]
    unfold processCPFFlow
    dsimp only []
    rw [if_pos h0]
    exact ⟨rfl, rfl⟩
  · intro h0 h10 h11
    have hc : (processMessage env phone text).2.calls =
        (processCPFFlow env phone text).2.calls := rfl
    have hl : (processMessage env phone text).2.lookups =
        (processCPFFlow env phone text).2.lookups := rfl
    rw [hc, hl]
    unfold processCPFFlow
    dsimp only []
    rw [if_neg h0, if_neg h11, if_neg h10]
    exact ⟨rfl, rfl⟩

/-- Witness for C9 at the concrete messages `olá` (no digits) and `123`
(three digits). -/
theorem processMessage_prompt_and_invalid_witness :
    ((processMessage envQRFails "5511999990000".data "olá".data).2.calls =
        [.text "5511999990000".data getInitialPromptCpf] ∧
      (processMessage envQRFails "5511999990000".data "olá".data).2.lookups = []) ∧
    ((processMessage envQRFails "5511999990000".data "123".data).2.calls =
        [.text "5511999990000".data getInvalidFormatMessageCpf] ∧
      (processMessage envQRFails "5511999990000".data "123".data).2.lookups = []) :=
  ⟨(processMessage_prompt_and_invalid envQRFails "5511999990000".data
      "olá".data).1 (by decide),
   (processMessage_prompt_and_invalid envQRFails "5511999990000".data
      "123".data).2 (by decide) (by decide) (by decide)⟩
